import Mathlib

/-!
CommandLineParser (base/CommandLineParser.hpp)

A shallow embedding of the `CommandLineParser` class and proofs about it.

Modelling conventions.

* `std::string` and `const char*` are Lean `String`s.  C strings carry no
  embedded NUL, so `strcmp(a, b.c_str()) == 0` is equality of the two strings.
* `std::unordered_map<std::string, CommandLineOption>` is an association list;
  the list order is the order in which a range-`for` visits the entries.
  `operator[]` on a missing key inserts a default-constructed option; the place
  of a new key in the iteration order is unspecified in C++ and is the end of
  the list here.
* `assert` failures are `none`.
* `strtol` follows the C standard for base 10; the width of `long` is the
  parameter `longBits` (32 on LLP64, 64 on LP64 platforms).
-/

namespace CommandLineParser

/-! ## Data model -/

/-- The struct `CommandLineOption`, with the default member initialisers of the source. -/
structure CommandLineOption where
  commands : List String := []
  value : String := ""
  hasValue : Bool := false
  help : String := ""
  set : Bool := false
  deriving DecidableEq, Repr

/-- The member `options`: the entries in iteration order. -/
abbrev Registry := List (String × CommandLineOption)

/-- The keys of the registry. -/
def keys (r : Registry) : List String := r.map Prod.fst

/-- The lookup `options.find(name)`: the entry stored under `name`, if any. -/
def find : Registry → String → Option CommandLineOption
  | [], _ => none
  | (k, o) :: rest, name => if k = name then some o else find rest name

/-- The statement `options[name].field = x`: `operator[]` finds the entry under `name`,
inserting a default-constructed option when there is none, and the assignment `f` is applied
to that entry. -/
def assign : Registry → String → (CommandLineOption → CommandLineOption) → Registry
  | [], name, f => [(name, f {})]
  | (k, o) :: rest, name, f =>
    if k = name then (k, f o) :: rest else (k, o) :: assign rest name f

/-! ## Registration -/

/-- The method `add`: five assignments through `options[name]`. -/
def add (r : Registry) (name : String) (commands : List String) (hasValue : Bool)
    (help : String) : Registry :=
  let r := assign r name (fun o => { o with commands := commands })
  let r := assign r name (fun o => { o with help := help })
  let r := assign r name (fun o => { o with set := false })
  let r := assign r name (fun o => { o with hasValue := hasValue })
  assign r name (fun o => { o with value := "" })

/-! ## Parsing -/

/-- The C function `strcmp`: zero for equal strings, otherwise the sign of the lexicographic
comparison of their characters. -/
def strcmp (a b : String) : Int :=
  if a = b then 0 else if a.data < b.data then -1 else 1

/-- The innermost loop of `parse`, `for (i = 0; i < arguments.size(); i++)`, for one command
of one option.  The argument list is the suffix `arguments[i..]`: its head is `arguments[i]`,
and `arguments.size() > i + 1` holds exactly when its tail is non-empty, whose head is then
`arguments[i + 1]`.  The result is the option and the local `printHelp` after the loop; the
`break` ends the loop. -/
def scanArguments (command : String) :
    List String → CommandLineOption → Bool → CommandLineOption × Bool
  | [], option, printHelp => (option, printHelp)
  | arg :: rest, option, printHelp =>
    if strcmp arg command = 0 then
      let option := { option with set := true }
      if option.hasValue then
        let option :=
          match rest with
          | next :: _ => { option with value := next }
          | [] => option
        if option.value = "" then
          (option, true)
        else
          scanArguments command rest option printHelp
      else
        scanArguments command rest option printHelp
    else
      scanArguments command rest option printHelp

/-- The middle loop of `parse`, `for (auto& command : option.second.commands)`. -/
def scanCommands (arguments : List String) :
    List String → CommandLineOption → Bool → CommandLineOption × Bool
  | [], option, printHelp => (option, printHelp)
  | command :: rest, option, printHelp =>
    let (option, printHelp) := scanArguments command arguments option printHelp
    scanCommands arguments rest option printHelp

/-- The outer loop of `parse`, `for (auto& option : options)`. -/
def scanOptions (arguments : List String) : Registry → Bool → Registry × Bool
  | [], printHelp => ([], printHelp)
  | (name, option) :: rest, printHelp =>
    let (option, printHelp) := scanCommands arguments option.commands option printHelp
    let (rest, printHelp) := scanOptions arguments rest printHelp
    ((name, option) :: rest, printHelp)

/-- The method `parse(std::vector<const char*> arguments)`. -/
def parse (r : Registry) (arguments : List String) : Registry :=
  let (r, printHelp) := scanOptions arguments r false
  if printHelp then assign r "help" (fun o => { o with set := true }) else r

/-! ## Accessors -/

/-- The method `isSet`. -/
def isSet (r : Registry) (name : String) : Bool :=
  match find r name with
  | some o => o.set
  | none => false

/-- The method `getValueAsString`; `none` is the failed assertion. -/
def getValueAsString (r : Registry) (name : String) (defaultValue : String) : Option String :=
  match find r name with
  | none => none
  | some o => some (if o.value ≠ "" then o.value else defaultValue)

/-- The C function `isspace` in the "C" locale. -/
def isspace (c : Char) : Bool :=
  c = ' ' || c = '\t' || c = '\n' || c = '\x0b' || c = '\x0c' || c = '\r'

/-- The value of the longest prefix of decimal digits, on top of the digits read so far. -/
def digitsValue : List Char → Nat → Nat
  | [], acc => acc
  | c :: cs, acc => if c.isDigit then digitsValue cs (acc * 10 + (c.toNat - '0'.toNat)) else acc

/-- The C function `strtol(s, &end, 10)` for a `long` of `longBits` bits: white space is
skipped, an optional sign is read, then the longest run of decimal digits; the result is 0
when there is no digit, and is clamped to the range of `long`. -/
def strtol (longBits : Nat) (s : String) : Int :=
  match s.data.dropWhile isspace with
  | '-' :: cs => max (-(digitsValue cs 0 : Int)) (-(2 ^ (longBits - 1) : Int))
  | '+' :: cs => min (digitsValue cs 0 : Int) (2 ^ (longBits - 1) - 1)
  | cs => min (digitsValue cs 0 : Int) (2 ^ (longBits - 1) - 1)

/-- The conversion of a `long` to `int32_t`: the value modulo `2^32` in `[-2^31, 2^31)`. -/
def toInt32 (x : Int) : Int := (x + 2 ^ 31) % 2 ^ 32 - 2 ^ 31

/-- The method `getValueAsInt`; `none` is the failed assertion. -/
def getValueAsInt (longBits : Nat) (r : Registry) (name : String) (defaultValue : Int) :
    Option Int :=
  match find r name with
  | none => none
  | some o =>
    if o.value ≠ "" then
      let intVal := toInt32 (strtol longBits o.value)
      some (if intVal > 0 then intVal else defaultValue)
    else
      some defaultValue

/-- The registry after the calls `add(name, commands, hasValue, help)` of `calls`, in order,
on the registry `r`. -/
def addAll (r : Registry) (calls : List (String × List String × Bool × String)) : Registry :=
  calls.foldl (fun r c => add r c.1 c.2.1 c.2.2.1 c.2.2.2) r

/-- Every option of the registry has an empty value and a cleared `set` flag. -/
def Fresh (r : Registry) : Prop :=
  ∀ name o, find r name = some o → o.value = "" ∧ o.set = false

/-- The body of the outer loop of `parse` for one option, entered with `printHelp` still
false: the option after its commands were scanned, and whether a missing value was found. -/
def scanOption (arguments : List String) (o : CommandLineOption) : CommandLineOption × Bool :=
  scanCommands arguments o.commands o false

/-- Whether `parse` leaves its local `printHelp` true, so that it sets `options["help"]`. -/
def missingValue (r : Registry) (arguments : List String) : Bool :=
  (scanOptions arguments r false).2

/-- The base-10 integer parsed from a string, in the words of the specification: the
mathematical integer written at the start of the string (optional white space, an optional
sign, then the longest run of decimal digits; 0 when there is no digit), whatever its size. -/
def parsedInteger (s : String) : Int :=
  match s.data.dropWhile isspace with
  | '-' :: cs => -(digitsValue cs 0 : Int)
  | '+' :: cs => (digitsValue cs 0 : Int)
  | cs => (digitsValue cs 0 : Int)

/-- The decimal numeral of a natural number. -/
def decimal (n : Nat) : String := toString n

/-! ## The second overload of `parse` -/

/-- The method `parse(int argc, char* argv[])`: the tokens `argv[0]`, ..., `argv[argc - 1]`
are collected, index 0 included, and passed to `parse`. -/
def parseArgv (r : Registry) (argc : Int) (argv : List String) : Registry :=
  parse r (argv.take argc.toNat)

/-! ## Help text -/

/-- The value of `commands.size() - 1` in the unsigned arithmetic of `size_t`, of `sizeBits`
bits: `SIZE_MAX` for an empty vector. -/
def sizeMinusOne (sizeBits : Nat) (size : Nat) : Nat :=
  (size + 2 ^ sizeBits - 1) % 2 ^ sizeBits

/-- The inner loop of `printHelp`, `for (i = 0; i < commands.size(); i++)`, from index `i` on
the suffix `commands[i..]`; `size` is `commands.size()` and `out` is the text written to
`std::cout` so far. -/
def printCommands (sizeBits size : Nat) : Nat → List String → String → String
  | _, [], out => out
  | i, command :: rest, out =>
    let out := out ++ command
    let out := if i < sizeMinusOne sizeBits size then out ++ ", " else out
    printCommands sizeBits size (i + 1) rest out

/-- The outer loop of `printHelp`, `for (auto option : options)`. -/
def printOptions (sizeBits : Nat) : Registry → String → String
  | [], out => out
  | (_, option) :: rest, out =>
    let out := out ++ " "
    let out := printCommands sizeBits option.commands.length 0 option.commands out
    let out := out ++ ": " ++ option.help ++ "\n"
    printOptions sizeBits rest out

/-- The method `printHelp`: the text it writes to `std::cout`. -/
def printHelp (sizeBits : Nat) (r : Registry) : String :=
  let out := printOptions sizeBits r "Available command line options:\n"
  out ++ "Press any key to close..."

/-- The line of the help listing for one option, in the words of the specification: a space,
the command tokens joined by a comma and a space, a colon and a space, the help text, and a
newline. -/
def helpLine (o : CommandLineOption) : String :=
  " " ++ ", ".intercalate o.commands ++ ": " ++ o.help ++ "\n"

/-- The help listing in the words of the specification: the header, one line for each option,
and the trailer. -/
def helpText (r : Registry) : String :=
  "Available command line options:\n" ++ String.join (r.map (fun e => helpLine e.2))
    ++ "Press any key to close..."

/-! ## Methods together with the registry they leave behind -/

/-- The expression `options[name]`: the registry after the lookup, which inserts a
default-constructed option under a missing key, and the entry it refers to. -/
def subscript (r : Registry) (name : String) : Registry × CommandLineOption :=
  match find r name with
  | some o => (r, o)
  | none => (assign r name id, {})

/-- The method `printHelp` with the registry after the call: the loop iterates over copies of
the entries and no statement of the method writes to `options`. -/
def printHelpState (sizeBits : Nat) (r : Registry) : String × Registry :=
  (printHelp sizeBits r, r)

/-- The method `isSet` with the registry after the call: `&&` evaluates `options[name]` only
when `find` has succeeded. -/
def isSetState (r : Registry) (name : String) : Bool × Registry :=
  if (find r name).isSome then
    let (r, o) := subscript r name
    (o.set, r)
  else
    (false, r)

/-- The method `getValueAsString` with the registry after the call; `none` is the failed
assertion. -/
def getValueAsStringState (r : Registry) (name : String) (defaultValue : String) :
    Option (String × Registry) :=
  if (find r name).isSome then
    let (r, o) := subscript r name
    let value := o.value
    some (if value ≠ "" then value else defaultValue, r)
  else
    none

/-- The method `getValueAsInt` with the registry after the call; `none` is the failed
assertion. -/
def getValueAsIntState (longBits : Nat) (r : Registry) (name : String) (defaultValue : Int) :
    Option (Int × Registry) :=
  if (find r name).isSome then
    let (r, o) := subscript r name
    let value := o.value
    if value ≠ "" then
      let intVal := toInt32 (strtol longBits value)
      some (if intVal > 0 then intVal else defaultValue, r)
    else
      some (defaultValue, r)
  else
    none

/-! ## The registry: lookup after assignment -/

theorem find_eq_none_iff (r : Registry) (name : String) :
    find r name = none ↔ name ∉ keys r := by
  induction r with
  | nil => simp [find, keys]
  | cons e rest ih =>
    obtain ⟨k, o⟩ := e
    by_cases h : k = name
    · simp [find, keys, h]
    · have h2 : ¬ name = k := fun h3 => h h3.symm
      simpa [find, keys, h, h2] using ih

theorem find_mem (r : Registry) (name : String) (o : CommandLineOption)
    (h : find r name = some o) : (name, o) ∈ r := by
  induction r with
  | nil => simp [find] at h
  | cons e rest ih =>
    obtain ⟨k, o2⟩ := e
    by_cases hk : k = name
    · simp [find, hk] at h
      simp [hk, h]
    · simp [find, hk] at h
      exact List.mem_cons_of_mem _ (ih h)

theorem find_assign_same (r : Registry) (name : String)
    (f : CommandLineOption → CommandLineOption) :
    find (assign r name f) name = some (f ((find r name).getD {})) := by
  induction r with
  | nil => simp [find, assign]
  | cons e rest ih =>
    obtain ⟨k, o⟩ := e
    by_cases h : k = name
    · simp [find, assign, h]
    · simp [find, assign, h, ih]

theorem find_assign_ne (r : Registry) (name other : String)
    (f : CommandLineOption → CommandLineOption) (h : other ≠ name) :
    find (assign r name f) other = find r other := by
  induction r with
  | nil =>
    have h2 : ¬ name = other := fun h3 => h h3.symm
    simp [find, assign, h2]
  | cons e rest ih =>
    obtain ⟨k, o⟩ := e
    have h2 : ¬ name = other := fun h3 => h h3.symm
    by_cases hk : k = name
    · simp [find, assign, hk, h2]
    · by_cases hk2 : k = other
      · subst hk2
        simp [find, assign, hk]
      · simp [find, assign, hk, hk2, ih]

theorem find_add_same (r : Registry) (name : String) (commands : List String)
    (hasValue : Bool) (help : String) :
    find (add r name commands hasValue help) name
      = some { commands := commands, value := "", hasValue := hasValue, help := help,
               set := false } := by
  simp [add, find_assign_same]

theorem find_add_ne (r : Registry) (name other : String) (commands : List String)
    (hasValue : Bool) (help : String) (h : other ≠ name) :
    find (add r name commands hasValue help) other = find r other := by
  simp [add, find_assign_ne _ _ _ _ h]

theorem fresh_add (r : Registry) (h : Fresh r) (name : String) (commands : List String)
    (hasValue : Bool) (help : String) : Fresh (add r name commands hasValue help) := by
  intro other o ho
  by_cases hn : other = name
  · subst hn
    rw [find_add_same] at ho
    cases ho
    exact ⟨rfl, rfl⟩
  · rw [find_add_ne _ _ _ _ _ _ hn] at ho
    exact h other o ho

theorem fresh_addAll (calls : List (String × List String × Bool × String)) :
    ∀ r : Registry, Fresh r → Fresh (addAll r calls) := by
  induction calls with
  | nil => intro r h; exact h
  | cons c rest ih =>
    intro r h
    exact ih _ (fresh_add r h _ _ _ _)

theorem fresh_nil : Fresh [] := by
  intro name o h
  simp [find] at h

/-! ## The loops of `parse` -/

theorem scanArguments_flag (command : String) (arguments : List String) :
    ∀ (o : CommandLineOption) (printHelp : Bool),
      scanArguments command arguments o printHelp
        = ((scanArguments command arguments o false).1,
           printHelp || (scanArguments command arguments o false).2) := by
  induction arguments with
  | nil => intro o printHelp; simp [scanArguments]
  | cons arg rest ih =>
    intro o printHelp
    simp only [scanArguments]
    split
    · split
      · split
        · simp
        · rw [ih]
      · rw [ih]
    · rw [ih]

theorem scanCommands_flag (arguments : List String) (commands : List String) :
    ∀ (o : CommandLineOption) (printHelp : Bool),
      scanCommands arguments commands o printHelp
        = ((scanCommands arguments commands o false).1,
           printHelp || (scanCommands arguments commands o false).2) := by
  induction commands with
  | nil => intro o printHelp; simp [scanCommands]
  | cons command rest ih =>
    intro o printHelp
    simp only [scanCommands]
    rw [scanArguments_flag command arguments o printHelp]
    rw [ih _ (printHelp || _), ih _ (scanArguments command arguments o false).2]
    simp [Bool.or_assoc]

theorem scanOptions_eq (arguments : List String) (r : Registry) :
    ∀ printHelp : Bool,
      scanOptions arguments r printHelp
        = (r.map (fun e => (e.1, (scanOption arguments e.2).1)),
           printHelp || r.any (fun e => (scanOption arguments e.2).2)) := by
  induction r with
  | nil => intro printHelp; simp [scanOptions]
  | cons e rest ih =>
    intro printHelp
    obtain ⟨k, o⟩ := e
    simp only [scanOptions]
    rw [scanCommands_flag arguments o.commands o printHelp, ih]
    simp [scanOption, Bool.or_assoc]

theorem find_map (r : Registry) (name : String) (f : CommandLineOption → CommandLineOption) :
    find (r.map (fun e => (e.1, f e.2))) name = (find r name).map f := by
  induction r with
  | nil => simp [find]
  | cons e rest ih =>
    obtain ⟨k, o⟩ := e
    by_cases h : k = name
    · simp [find, h]
    · simp [find, h, ih]

theorem find_scanned (r : Registry) (arguments : List String) (name : String) :
    find (r.map (fun e => (e.1, (scanOption arguments e.2).1))) name
      = (find r name).map (fun o => (scanOption arguments o).1) :=
  find_map r name (fun o => (scanOption arguments o).1)

theorem missingValue_eq (r : Registry) (arguments : List String) :
    missingValue r arguments = r.any (fun e => (scanOption arguments e.2).2) := by
  simp [missingValue, scanOptions_eq]

theorem parse_eq (r : Registry) (arguments : List String) :
    parse r arguments
      = if missingValue r arguments then
          assign (r.map (fun e => (e.1, (scanOption arguments e.2).1))) "help"
            (fun o => { o with set := true })
        else r.map (fun e => (e.1, (scanOption arguments e.2).1)) := by
  simp [parse, missingValue, scanOptions_eq]

/-- The entry of an option other than `help` after `parse`: its own commands were scanned. -/
theorem find_parse_ne (r : Registry) (arguments : List String) (name : String)
    (h : name ≠ "help") :
    find (parse r arguments) name
      = (find r name).map (fun o => (scanOption arguments o).1) := by
  rw [parse_eq]
  split
  · rw [find_assign_ne _ _ _ _ h, find_scanned]
  · rw [find_scanned]

/-- The entry of `help` after `parse`. -/
theorem find_parse_help (r : Registry) (arguments : List String) :
    find (parse r arguments) "help"
      = if missingValue r arguments then
          some { ((find r "help").map (fun o => (scanOption arguments o).1)).getD {} with
                 set := true }
        else (find r "help").map (fun o => (scanOption arguments o).1) := by
  rw [parse_eq]
  split
  · rw [find_assign_same, find_scanned]
  · rw [find_scanned]

/-- The value of any option after `parse` is the value left by the scan of its commands. -/
theorem value_parse (r : Registry) (arguments : List String) (name : String)
    (o : CommandLineOption) (h : find r name = some o) :
    ∃ o2, find (parse r arguments) name = some o2 ∧
      o2.value = (scanOption arguments o).1.value := by
  by_cases hn : name = "help"
  · subst hn
    rw [find_parse_help, h]
    split
    · exact ⟨_, rfl, rfl⟩
    · exact ⟨_, rfl, rfl⟩
  · rw [find_parse_ne _ _ _ hn, h]
    exact ⟨_, rfl, rfl⟩


theorem strcmp_eq_zero_iff (a b : String) : strcmp a b = 0 ↔ a = b := by
  unfold strcmp
  by_cases h : a = b
  · simp [h]
  · simp only [h, if_false]
    split <;> simp

theorem scanArguments_not_mem (command : String) (arguments : List String)
    (h : command ∉ arguments) (o : CommandLineOption) (printHelp : Bool) :
    scanArguments command arguments o printHelp = (o, printHelp) := by
  induction arguments with
  | nil => simp [scanArguments]
  | cons arg rest ih =>
    have h1 : ¬ arg = command := fun h2 => h (by simp [h2])
    have h3 : command ∉ rest := fun h2 => h (List.mem_cons_of_mem _ h2)
    simp [scanArguments, strcmp_eq_zero_iff, h1, ih h3]

theorem scanCommands_not_mem (arguments : List String) (commands : List String)
    (h : ∀ c ∈ commands, c ∉ arguments) (o : CommandLineOption) (printHelp : Bool) :
    scanCommands arguments commands o printHelp = (o, printHelp) := by
  induction commands with
  | nil => simp [scanCommands]
  | cons c rest ih =>
    simp only [scanCommands]
    rw [scanArguments_not_mem c arguments (h c (by simp))]
    exact ih (fun c2 hc2 => h c2 (List.mem_cons_of_mem _ hc2))

/-! ## Decimal numerals and `strtol` -/

/-- The value of a list of decimal digits read from the left on top of `acc`. -/
theorem digitsValue_append_digit (ds : List Char) (c : Char) (hds : ∀ x ∈ ds, x.isDigit = true)
    (hc : c.isDigit = true) :
    ∀ acc, digitsValue (ds ++ [c]) acc = digitsValue ds acc * 10 + (c.toNat - '0'.toNat) := by
  induction ds with
  | nil => intro acc; simp [digitsValue, hc]
  | cons x xs ih =>
    intro acc
    have hx : x.isDigit = true := hds x (by simp)
    simp only [List.cons_append, digitsValue, hx, if_true]
    exact ih (fun y hy => hds y (List.mem_cons_of_mem _ hy)) _

theorem digitChar_isDigit (d : Nat) (h : d < 10) :
    (Nat.digitChar d).isDigit = true ∧ (Nat.digitChar d).toNat - '0'.toNat = d := by
  interval_cases d <;> decide

theorem toDigitsCore_append (fuel : Nat) :
    ∀ (n : Nat) (l : List Char),
      Nat.toDigitsCore 10 fuel n l = Nat.toDigitsCore 10 fuel n [] ++ l := by
  induction fuel with
  | zero => intro n l; simp [Nat.toDigitsCore]
  | succ fuel ih =>
    intro n l
    simp only [Nat.toDigitsCore]
    split
    · simp
    · rw [ih _ (_ :: l), ih _ [_]]
      simp

theorem toDigitsCore_spec (fuel : Nat) :
    ∀ n, n < fuel →
      (∀ x ∈ Nat.toDigitsCore 10 fuel n [], x.isDigit = true) ∧
      Nat.toDigitsCore 10 fuel n [] ≠ [] ∧
      digitsValue (Nat.toDigitsCore 10 fuel n []) 0 = n := by
  induction fuel with
  | zero => intro n h; omega
  | succ fuel ih =>
    intro n h
    have hd := digitChar_isDigit (n % 10) (Nat.mod_lt _ (by decide))
    simp only [Nat.toDigitsCore]
    split
    · rename_i h0
      have hn : n % 10 = n := by omega
      rw [hn] at hd ⊢
      refine ⟨?_, by simp, ?_⟩
      · intro x hx
        simp at hx
        rw [hx]; exact hd.1
      · simpa [digitsValue, hd.1] using hd.2
    · rename_i h0
      have hlt : n / 10 < fuel := by omega
      obtain ⟨h1, h2, h3⟩ := ih (n / 10) hlt
      rw [toDigitsCore_append]
      refine ⟨?_, by simp, ?_⟩
      · intro x hx
        rcases List.mem_append.1 hx with hx | hx
        · exact h1 x hx
        · simp at hx
          rw [hx]; exact hd.1
      · rw [digitsValue_append_digit _ _ h1 hd.1, h3, hd.2]
        omega

theorem decimal_data (n : Nat) : (decimal n).data = Nat.toDigits 10 n := by
  simp [decimal, toString, Nat.repr, List.asString]

theorem decimal_spec (n : Nat) :
    (∀ x ∈ (decimal n).data, x.isDigit = true) ∧ (decimal n).data ≠ [] ∧
      digitsValue (decimal n).data 0 = n := by
  rw [decimal_data]
  exact toDigitsCore_spec (n + 1) n (Nat.lt_succ_self n)

theorem not_isspace_of_isDigit (c : Char) (h : c.isDigit = true) :
    isspace c = false ∧ c ≠ '-' ∧ c ≠ '+' := by
  refine ⟨?_, ?_, ?_⟩
  · simp only [isspace, Bool.or_eq_false_iff, decide_eq_false_iff_not]
    refine ⟨⟨⟨⟨⟨?_, ?_⟩, ?_⟩, ?_⟩, ?_⟩, ?_⟩ <;> (intro hc; rw [hc] at h; revert h; decide)
  · intro hc; rw [hc] at h; revert h; decide
  · intro hc; rw [hc] at h; revert h; decide

/-- On a string that starts with a digit `strtol` reads the digits, clamped to `long`. -/
theorem strtol_of_digit_head (longBits : Nat) (s : String) (c : Char) (cs : List Char)
    (hs : s.data = c :: cs) (hc : c.isDigit = true) :
    strtol longBits s = min (digitsValue (c :: cs) 0 : Int) (2 ^ (longBits - 1) - 1) := by
  obtain ⟨h1, h2, h3⟩ := not_isspace_of_isDigit c hc
  unfold strtol
  rw [hs]
  simp only [List.dropWhile, h1]
  split
  · rename_i heq
    simp at heq
    exact absurd heq.1 h2
  · rename_i heq
    simp at heq
    exact absurd heq.1 h3
  · rfl

theorem strtol_decimal (longBits : Nat) (n : Nat) (h32 : 32 ≤ longBits) (hn : n < 2 ^ 31) :
    strtol longBits (decimal n) = n := by
  obtain ⟨h1, h2, h3⟩ := decimal_spec n
  obtain ⟨c, cs, hs⟩ := List.exists_cons_of_ne_nil h2
  rw [strtol_of_digit_head longBits _ c cs hs (h1 c (by simp [hs])), ← hs, h3]
  have hp : (2 : Int) ^ 31 ≤ 2 ^ (longBits - 1) :=
    pow_le_pow_right₀ (by norm_num) (by omega)
  have hn2 : (n : Int) < 2 ^ 31 := by exact_mod_cast hn
  exact min_eq_left (by omega)

theorem toInt32_of_range (x : Int) (h0 : -2 ^ 31 ≤ x) (h1 : x < 2 ^ 31) : toInt32 x = x := by
  unfold toInt32
  norm_num at h0 h1 ⊢
  omega

theorem decimal_ne_empty (n : Nat) : decimal n ≠ "" := by
  intro h
  have := (decimal_spec n).2.1
  rw [h] at this
  exact this rfl

/-- A decimal numeral is different from any string that does not start with a digit. -/
theorem decimal_ne_of_head (n : Nat) (s : String) (c : Char) (cs : List Char)
    (hs : s.data = c :: cs) (hc : c.isDigit = false) : decimal n ≠ s := by
  intro h
  have := (decimal_spec n).1 c (by rw [h, hs]; simp)
  rw [hc] at this
  exact Bool.noConfusion this

/-- Text that starts with no number (its first character is neither white space, a sign nor
a digit, as in `abc`) is read as 0. -/
theorem strtol_of_no_number (longBits : Nat) (s : String) (c : Char) (cs : List Char)
    (hs : s.data = c :: cs) (h1 : isspace c = false) (h2 : c ≠ '-') (h3 : c ≠ '+')
    (h4 : c.isDigit = false) : strtol longBits s = 0 := by
  unfold strtol
  rw [hs]
  simp only [List.dropWhile, h1]
  have hp : (1 : Int) ≤ 2 ^ (longBits - 1) := one_le_pow₀ (by norm_num)
  split
  · rename_i heq
    simp at heq
    exact absurd heq.1 h2
  · rename_i heq
    simp at heq
    exact absurd heq.1 h3
  · simp only [digitsValue, h4]
    exact min_eq_left (by simpa using hp)

/-- A minus sign followed by the decimal numeral of `n ≤ 2^31` is read as `-n`. -/
theorem strtol_neg_decimal (longBits : Nat) (n : Nat) (h32 : 32 ≤ longBits)
    (hn : n ≤ 2 ^ 31) : strtol longBits ("-" ++ decimal n) = -(n : Int) := by
  have hd : ("-" ++ decimal n).data = '-' :: (decimal n).data := by
    simp [String.data_append]
  unfold strtol
  rw [hd]
  have hsp : isspace '-' = false := by decide
  simp only [List.dropWhile, hsp, (decimal_spec n).2.2]
  have hp : (2 : Int) ^ 31 ≤ 2 ^ (longBits - 1) :=
    pow_le_pow_right₀ (by norm_num) (by omega)
  have hn2 : (n : Int) ≤ 2 ^ 31 := by exact_mod_cast hn
  exact max_eq_left (by omega)

/-! ## Scans that capture no value -/

/-- The scan of one command of a value-taking option whose value is empty, when no occurrence
of the command is followed by a non-empty token: the value stays empty and `printHelp` is
raised exactly when the command occurs. -/
theorem scanArguments_no_value (command : String) (arguments : List String) :
    ∀ (o : CommandLineOption) (printHelp : Bool),
      (∀ i v, arguments[i]? = some command → arguments[i + 1]? = some v → v = "") →
      o.value = "" → o.hasValue = true →
      (scanArguments command arguments o printHelp).1.value = "" ∧
      (scanArguments command arguments o printHelp).1.hasValue = true ∧
      (scanArguments command arguments o printHelp).2
        = (printHelp || decide (command ∈ arguments)) := by
  induction arguments with
  | nil => intro o printHelp _ hv hh; simp [scanArguments, hv, hh]
  | cons arg rest ih =>
    intro o printHelp hnf hv hh
    by_cases ha : arg = command
    · subst ha
      cases rest with
      | nil => simp [scanArguments, strcmp_eq_zero_iff, hv, hh]
      | cons next rest2 =>
        have hn : next = "" := hnf 0 next (by simp) (by simp)
        simp [scanArguments, strcmp_eq_zero_iff, hh, hn]
    · have hnf2 : ∀ i v, rest[i]? = some command → rest[i + 1]? = some v → v = "" := by
        intro i v h1 h2
        exact hnf (i + 1) v (by simpa using h1) (by simpa using h2)
      have hc : ¬ command = arg := fun h => ha h.symm
      obtain ⟨h1, h2, h3⟩ := ih o printHelp hnf2 hv hh
      simp only [scanArguments, strcmp_eq_zero_iff, ha, if_false]
      refine ⟨h1, h2, ?_⟩
      rw [h3]
      simp [hc]

theorem scanCommands_no_value (arguments : List String) (commands : List String) :
    ∀ (o : CommandLineOption) (printHelp : Bool),
      (∀ c ∈ commands, ∀ i v, arguments[i]? = some c → arguments[i + 1]? = some v → v = "") →
      o.value = "" → o.hasValue = true →
      (scanCommands arguments commands o printHelp).2
        = (printHelp || commands.any (fun c => decide (c ∈ arguments))) := by
  induction commands with
  | nil => intro o printHelp _ _ _; simp [scanCommands]
  | cons c rest ih =>
    intro o printHelp hnf hv hh
    obtain ⟨h1, h2, h3⟩ :=
      scanArguments_no_value c arguments o printHelp (hnf c (by simp)) hv hh
    simp only [scanCommands]
    rw [ih _ _ (fun c2 hc2 => hnf c2 (List.mem_cons_of_mem _ hc2)) h1 h2, h3]
    simp [Bool.or_assoc]

theorem isSet_help_of_missingValue (r : Registry) (arguments : List String)
    (h : missingValue r arguments = true) : isSet (parse r arguments) "help" = true := by
  simp [isSet, find_parse_help, h]

/-! ## Scans in which every value is captured -/

theorem scanArguments_capture (command next : String) (rest : List String)
    (o : CommandLineOption) (printHelp : Bool) (hh : o.hasValue = true) (hn : next ≠ "") :
    scanArguments command (command :: next :: rest) o printHelp
      = scanArguments command (next :: rest) { o with set := true, value := next }
          printHelp := by
  rw [scanArguments]
  simp [strcmp_eq_zero_iff, hh, hn]

/-- The scan of one command of a value-taking option, when every occurrence of the command
is followed by a non-empty token and the last occurrence is followed by `v`: the option is
set, its value is `v`, and `printHelp` is not raised. -/
theorem scanArguments_last (command v : String) (post : List String)
    (hlast : command ∉ v :: post) (pre : List String) :
    ∀ (o : CommandLineOption) (printHelp : Bool),
      (∀ i, (pre ++ command :: v :: post)[i]? = some command →
        (pre ++ command :: v :: post)[i + 1]? ≠ some "") →
      o.hasValue = true →
      scanArguments command (pre ++ command :: v :: post) o printHelp
        = ({ o with set := true, value := v }, printHelp) := by
  induction pre with
  | nil =>
    intro o printHelp hne hh
    have hv : v ≠ "" := fun h => hne 0 (by simp) (by simp [h])
    rw [List.nil_append, scanArguments_capture _ _ _ _ _ hh hv,
      scanArguments_not_mem _ _ hlast]
  | cons arg pre2 ih =>
    intro o printHelp hne hh
    have hne2 : ∀ i, (pre2 ++ command :: v :: post)[i]? = some command →
        (pre2 ++ command :: v :: post)[i + 1]? ≠ some "" := by
      intro i h1 h2
      exact hne (i + 1) (by simpa using h1) (by simpa using h2)
    by_cases ha : arg = command
    · subst ha
      obtain ⟨next, rest, hr⟩ : ∃ next rest, pre2 ++ arg :: v :: post = next :: rest :=
        List.exists_cons_of_ne_nil (by simp)
      have hn : next ≠ "" := fun h => hne 0 (by simp) (by simp [hr, h])
      rw [List.cons_append, hr, scanArguments_capture _ _ _ _ _ hh hn, ← hr,
        ih { o with set := true, value := next } printHelp hne2 hh]
    · rw [List.cons_append, scanArguments]
      simp only [strcmp_eq_zero_iff, ha, if_false]
      exact ih o printHelp hne2 hh

/-- What `strtol` returns is the parsed integer clamped to the range of `long`. -/
theorem strtol_eq_clamp (longBits : Nat) (s : String) :
    strtol longBits s
      = max (min (parsedInteger s) (2 ^ (longBits - 1) - 1)) (-(2 ^ (longBits - 1) : Int)) := by
  have hp : (1 : Int) ≤ 2 ^ (longBits - 1) := one_le_pow₀ (by norm_num)
  unfold strtol parsedInteger
  split
  · rename_i cs _
    have h0 : (0 : Int) ≤ (digitsValue cs 0 : Int) := Int.natCast_nonneg _
    rw [min_eq_left (by omega)]
  · rename_i cs _
    have h0 : (0 : Int) ≤ (digitsValue cs 0 : Int) := Int.natCast_nonneg _
    rw [max_eq_left]
    exact le_min (by omega) (by omega)
  · rename_i cs _ _
    have h0 : (0 : Int) ≤ (digitsValue cs 0 : Int) := Int.natCast_nonneg _
    rw [max_eq_left]
    exact le_min (by omega) (by omega)

/-- For a parsed integer in the range of `int32_t`, neither the clamping of `strtol` nor the
conversion to `int32_t` changes it. -/
theorem toInt32_strtol_of_range (longBits : Nat) (h32 : 32 ≤ longBits) (s : String)
    (hlo : -(2 ^ 31 : Int) ≤ parsedInteger s) (hhi : parsedInteger s ≤ 2 ^ 31 - 1) :
    toInt32 (strtol longBits s) = parsedInteger s := by
  have hp : (2 : Int) ^ 31 ≤ 2 ^ (longBits - 1) :=
    pow_le_pow_right₀ (by norm_num) (by omega)
  rw [strtol_eq_clamp, min_eq_left (by omega), max_eq_left (by omega)]
  exact toInt32_of_range _ (by omega) (by omega)

/-! ## Claims -/

/-- C1: on a registry where option `w` was added with commands `-w`, `--width` and
`hasValue = true`, parsing the tokens `-w`, `decimal n` for `1 ≤ n ≤ 2^31 - 1` makes
`isSet("w")` true and `getValueAsInt("w", d)` return `n`, for every default `d`. -/
theorem parse_width_then_getValueAsInt (longBits : Nat) (h32 : 32 ≤ longBits) (r : Registry)
    (help : String) (n : Nat) (h1 : 1 ≤ n) (h2 : n ≤ 2 ^ 31 - 1) (d : Int) :
    isSet (parse (add r "w" ["-w", "--width"] true help) ["-w", decimal n]) "w" = true ∧
    getValueAsInt longBits (parse (add r "w" ["-w", "--width"] true help) ["-w", decimal n])
      "w" d = some (n : Int) := by
  have hw : "w" ≠ "help" := by decide
  have hne := decimal_ne_empty n
  have hd1 : decimal n ≠ "-w" := decimal_ne_of_head n "-w" '-' ['w'] rfl (by decide)
  have hd2 : decimal n ≠ "--width" :=
    decimal_ne_of_head n "--width" '-' "-width".data rfl (by decide)
  have hs : (scanOption ["-w", decimal n]
      { commands := ["-w", "--width"], value := "", hasValue := true, help := help,
        set := false }).1
      = { commands := ["-w", "--width"], value := decimal n, hasValue := true, help := help,
          set := true } := by
    have e1 : ¬ "-w" = "--width" := by decide
    simp [scanOption, scanCommands, scanArguments, strcmp_eq_zero_iff, hne, hd1, hd2, e1]
  have hf : find (parse (add r "w" ["-w", "--width"] true help) ["-w", decimal n]) "w"
      = some { commands := ["-w", "--width"], value := decimal n, hasValue := true,
               help := help, set := true } := by
    rw [find_parse_ne _ _ _ hw, find_add_same, Option.map_some', hs]
  have hlt : n < 2 ^ 31 := by omega
  have hi : toInt32 (strtol longBits (decimal n)) = n := by
    rw [strtol_decimal longBits n h32 hlt]
    have : (n : Int) < 2 ^ 31 := by exact_mod_cast hlt
    exact toInt32_of_range _ (by omega) this
  have hpos : (0 : Int) < n := by exact_mod_cast h1
  refine ⟨by simp [isSet, hf], ?_⟩
  simp [getValueAsInt, hf, hne, hi, hpos]

/-- Witness of C1: `n = 1920`, `d = 800`, a 64-bit `long`, an empty registry before `add`. -/
theorem parse_width_then_getValueAsInt_witness :
    (32 ≤ 64 ∧ 1 ≤ 1920 ∧ 1920 ≤ 2 ^ 31 - 1) ∧ decimal 1920 = "1920" ∧
    isSet (parse (add [] "w" ["-w", "--width"] true "") ["-w", decimal 1920]) "w" = true ∧
    getValueAsInt 64 (parse (add [] "w" ["-w", "--width"] true "") ["-w", decimal 1920])
      "w" 800 = some ((1920 : Nat) : Int) :=
  ⟨by decide, by decide,
    parse_width_then_getValueAsInt 64 (by decide) [] "" 1920 (by decide) (by decide) 800⟩

/-- Counterexample to C2 as stated: with `help` (command `-h`) and `w` (command `-w`,
`hasValue = true`) freshly added, the tokens `["-w"]` mention no command of `help`, yet
`isSet("help")` is true after `parse`. -/
theorem unmentioned_help_is_set :
    find (addAll [] [("help", ["-h"], false, ""), ("w", ["-w"], true, "")]) "help"
      = some { commands := ["-h"], value := "", hasValue := false, help := "", set := false } ∧
    (∀ c ∈ ["-h"], c ∉ ["-w"]) ∧
    isSet (parse (addAll [] [("help", ["-h"], false, ""), ("w", ["-w"], true, "")]) ["-w"])
      "help" = true := by
  decide

/-- C2, amended: for a registry of freshly added options, any token sequence and any
registered option none of whose command tokens occurs in the token sequence, after `parse`
the value accessors return the supplied default, and `isSet(name)` is false unless the name
is `help` and `parse` found a missing value: `isSet(name)` is true exactly in that case. -/
theorem unmentioned_option_after_parse (longBits : Nat)
    (calls : List (String × List String × Bool × String)) (arguments : List String)
    (name : String) (o : CommandLineOption)
    (hreg : find (addAll [] calls) name = some o)
    (hno : ∀ c ∈ o.commands, c ∉ arguments) (d : String) (di : Int) :
    (isSet (parse (addAll [] calls) arguments) name = true ↔
      (name = "help" ∧ missingValue (addAll [] calls) arguments = true)) ∧
    getValueAsString (parse (addAll [] calls) arguments) name d = some d ∧
    getValueAsInt longBits (parse (addAll [] calls) arguments) name di = some di := by
  obtain ⟨hv, hset⟩ := fresh_addAll calls [] fresh_nil name o hreg
  have hscan : scanOption arguments o = (o, false) := scanCommands_not_mem _ _ hno _ _
  by_cases hn : name = "help"
  · subst hn
    have hf := find_parse_help (addAll [] calls) arguments
    rw [hreg, Option.map_some', hscan] at hf
    by_cases hm : missingValue (addAll [] calls) arguments = true
    · simp only [hm, if_true, Option.getD_some] at hf
      simp [isSet, getValueAsString, getValueAsInt, hf, hv, hm]
    · simp only [hm] at hf
      simp [isSet, getValueAsString, getValueAsInt, hf, hv, hm, hset]
  · have hf := find_parse_ne (addAll [] calls) arguments name hn
    rw [hreg, Option.map_some', hscan] at hf
    simp [isSet, getValueAsString, getValueAsInt, hf, hv, hn, hset]

/-- Witness of C2, amended: `help`, `w` and `height` freshly added, tokens `["-w", "640"]`,
option `height`, which stays unset with the defaults returned. -/
theorem unmentioned_option_after_parse_witness :
    (find (addAll [] [("help", ["-h"], false, ""), ("w", ["-w"], true, ""),
        ("height", ["-ht", "--height"], true, "")]) "height"
      = some { commands := ["-ht", "--height"], hasValue := true } ∧
     ∀ c ∈ ["-ht", "--height"], c ∉ ["-w", "640"]) ∧
    (isSet (parse (addAll [] [("help", ["-h"], false, ""), ("w", ["-w"], true, ""),
        ("height", ["-ht", "--height"], true, "")]) ["-w", "640"]) "height" = true ↔
      ("height" = "help" ∧
        missingValue (addAll [] [("help", ["-h"], false, ""), ("w", ["-w"], true, ""),
          ("height", ["-ht", "--height"], true, "")]) ["-w", "640"] = true)) ∧
    getValueAsString (parse (addAll [] [("help", ["-h"], false, ""), ("w", ["-w"], true, ""),
        ("height", ["-ht", "--height"], true, "")]) ["-w", "640"]) "height" "x" = some "x" ∧
    getValueAsInt 64 (parse (addAll [] [("help", ["-h"], false, ""), ("w", ["-w"], true, ""),
        ("height", ["-ht", "--height"], true, "")]) ["-w", "640"]) "height" 480 = some 480 :=
  ⟨by decide,
    unmentioned_option_after_parse 64
      [("help", ["-h"], false, ""), ("w", ["-w"], true, ""),
        ("height", ["-ht", "--height"], true, "")]
      ["-w", "640"] "height" { commands := ["-ht", "--height"], hasValue := true }
      (by decide) (by decide) "x" 480⟩

/-- Counterexample to C3 as stated: with `help` and `w` (command `-w`, `hasValue = true`)
freshly added, the tokens `["-w", "5", "-w"]` end in a command token of `w` with no following
token, yet `isSet("help")` is false after `parse`: the value `5` captured at the first `-w` is
still stored when the last `-w` is matched. -/
theorem trailing_flag_after_value_no_help :
    find (addAll [] [("help", ["-h"], false, ""), ("w", ["-w"], true, "")]) "help"
      = some { commands := ["-h"], value := "", hasValue := false, help := "", set := false } ∧
    find (addAll [] [("help", ["-h"], false, ""), ("w", ["-w"], true, "")]) "w"
      = some { commands := ["-w"], value := "", hasValue := true, help := "", set := false } ∧
    ["-w", "5", "-w"].getLast? = some "-w" ∧
    isSet
      (parse (addAll [] [("help", ["-h"], false, ""), ("w", ["-w"], true, "")])
        ["-w", "5", "-w"])
      "help" = false := by
  decide

/-- C3, amended: for a registry of freshly added options and a token sequence whose final
token is a command token of some option registered with `hasValue = true`, if no occurrence
of a command token of that option is followed by a non-empty token, then `isSet("help")` is
true after `parse` (whether or not `help` was registered before). -/
theorem trailing_flag_sets_help (calls : List (String × List String × Bool × String))
    (arguments : List String) (name : String) (o : CommandLineOption) (c : String)
    (hreg : find (addAll [] calls) name = some o) (hh : o.hasValue = true)
    (hc : c ∈ o.commands) (hlast : arguments.getLast? = some c)
    (hnf : ∀ c2 ∈ o.commands, ∀ (i : Nat) (v : String),
      arguments[i]? = some c2 → arguments[i + 1]? = some v → v = "") :
    isSet (parse (addAll [] calls) arguments) "help" = true := by
  apply isSet_help_of_missingValue
  rw [missingValue_eq, List.any_eq_true]
  refine ⟨(name, o), find_mem _ _ _ hreg, ?_⟩
  have hv := (fresh_addAll calls [] fresh_nil name o hreg).1
  show (scanCommands arguments o.commands o false).2 = true
  rw [scanCommands_no_value arguments o.commands o false hnf hv hh]
  simp only [Bool.false_or, List.any_eq_true, decide_eq_true_eq]
  exact ⟨c, hc, List.mem_of_getLast?_eq_some hlast⟩

/-- Witness of C3, amended: `help` and `w` freshly added, tokens `["-w"]`. -/
theorem trailing_flag_sets_help_witness :
    (find (addAll [] [("help", ["-h"], false, ""), ("w", ["-w"], true, "")]) "w"
        = some { commands := ["-w"], hasValue := true } ∧
      ["-w"].getLast? = some "-w" ∧
      ∀ c2 ∈ ["-w"], ∀ (i : Nat) (v : String),
        ["-w"][i]? = some c2 → ["-w"][i + 1]? = some v → v = "") ∧
    isSet (parse (addAll [] [("help", ["-h"], false, ""), ("w", ["-w"], true, "")]) ["-w"])
      "help" = true := by
  have hnf : ∀ c2 ∈ ["-w"], ∀ (i : Nat) (v : String),
      ["-w"][i]? = some c2 → ["-w"][i + 1]? = some v → v = "" := by
    intro c2 _ i v _ h2
    simp at h2
  exact ⟨⟨by decide, rfl, hnf⟩,
    trailing_flag_sets_help [("help", ["-h"], false, ""), ("w", ["-w"], true, "")] ["-w"] "w"
      { commands := ["-w"], hasValue := true } "-w" (by decide) rfl (by decide) rfl hnf⟩

/-- Counterexample to C4 as stated: for option `w` freshly added with the single command
`--width` and `hasValue = true`, the tokens `["--width", "", "--width", "200"]` contain the
command twice and its last occurrence is followed by `200`, yet `getValueAsString("w", "d")`
returns the default `d`: the empty token after the first occurrence ends the scan. -/
theorem last_match_lost_after_empty_token :
    getValueAsString
      (parse (add [] "w" ["--width"] true "") ["--width", "", "--width", "200"]) "w" "d"
      = some "d" := by
  decide

/-- C4, amended: last match wins when every captured token is non-empty.  For an option added
with `hasValue = true` and the single command token `c`, and a token sequence in which every
occurrence of `c` is followed by a non-empty token and the last occurrence of `c` is followed
by `v`, after `parse` `getValueAsString(name, d)` returns `v`.  The token sequence is
`pre ++ c :: v :: post` with no `c` in `v :: post`. -/
theorem last_match_wins (r : Registry) (name c help v : String) (pre post : List String)
    (d : String) (hlast : c ∉ v :: post)
    (hne : ∀ i : Nat, (pre ++ c :: v :: post)[i]? = some c →
      (pre ++ c :: v :: post)[i + 1]? ≠ some "") :
    getValueAsString (parse (add r name [c] true help) (pre ++ c :: v :: post)) name d
      = some v := by
  have hv : v ≠ "" := fun h =>
    hne pre.length (by rw [List.getElem?_append_right (le_refl _)]; simp)
      (by rw [List.getElem?_append_right (Nat.le_succ _)]; simp [h])
  obtain ⟨o2, hf, hval⟩ := value_parse (add r name [c] true help) (pre ++ c :: v :: post)
    name _ (find_add_same r name [c] true help)
  have hs : (scanOption (pre ++ c :: v :: post)
      { commands := [c], value := "", hasValue := true, help := help, set := false }).1.value
      = v := by
    simp only [scanOption, scanCommands]
    rw [scanArguments_last c v post hlast pre _ false hne rfl]
  rw [hs] at hval
  simp [getValueAsString, hf, hval, hv]

/-- Witness of C4, amended: the tokens `["--width", "100", "--width", "200"]` give `200`. -/
theorem last_match_wins_witness :
    ("--width" ∉ ["200"] ∧
      ∀ i : Nat, ["--width", "100", "--width", "200"][i]? = some "--width" →
        ["--width", "100", "--width", "200"][i + 1]? ≠ some "") ∧
    getValueAsString
      (parse (add [] "w" ["--width"] true "") ["--width", "100", "--width", "200"])
      "w" "d" = some "200" := by
  have hne : ∀ i : Nat, ["--width", "100", "--width", "200"][i]? = some "--width" →
      ["--width", "100", "--width", "200"][i + 1]? ≠ some "" := by
    intro i h1 h2
    match i with
    | 0 => simp at h2
    | 1 => simp at h1
    | 2 => simp at h2
    | 3 => simp at h1
    | i + 4 => simp at h1
  exact ⟨⟨by decide, hne⟩,
    last_match_wins [] "w" "--width" "" "200" ["--width", "100"] [] "d" (by decide) hne⟩

/-- Counterexample to C5 as stated: the stored value `4294967297` is not empty and the
base-10 integer parsed from it, `2^32 + 1`, is strictly positive, yet `getValueAsInt("w", 800)`
returns neither that integer nor the default: a 64-bit `long` keeps it and the conversion to
`int32_t` wraps it to 1; a 32-bit `long` clamps it to `2^31 - 1`. -/
theorem getValueAsInt_out_of_range :
    find (parse (add [] "w" ["-w"] true "") ["-w", "4294967297"]) "w"
      = some { commands := ["-w"], value := "4294967297", hasValue := true, help := "",
               set := true } ∧
    parsedInteger "4294967297" = 4294967297 ∧
    ¬ ("4294967297" = "" ∨ parsedInteger "4294967297" ≤ 0) ∧
    getValueAsInt 64 (parse (add [] "w" ["-w"] true "") ["-w", "4294967297"]) "w" 800
      = some 1 ∧
    getValueAsInt 32 (parse (add [] "w" ["-w"] true "") ["-w", "4294967297"]) "w" 800
      = some 2147483647 := by
  decide

/-- C5, amended: for every registered option and every default `d` such that the base-10
integer parsed from the stored value lies in the range of `int32_t`, from `-2^31` to
`2^31 - 1`: `getValueAsInt(name, d)` returns `d` exactly when the stored value is empty or
the parsed integer is not strictly positive, and otherwise returns that parsed integer. -/
theorem getValueAsInt_cases (longBits : Nat) (h32 : 32 ≤ longBits) (r : Registry)
    (name : String) (o : CommandLineOption) (d : Int) (hreg : find r name = some o)
    (hlo : -(2 ^ 31 : Int) ≤ parsedInteger o.value)
    (hhi : parsedInteger o.value ≤ 2 ^ 31 - 1) :
    getValueAsInt longBits r name d
      = some (if o.value = "" ∨ parsedInteger o.value ≤ 0 then d else parsedInteger o.value) ∧
    ((o.value = "" ∨ parsedInteger o.value ≤ 0) → getValueAsInt longBits r name d = some d) ∧
    (¬ (o.value = "" ∨ parsedInteger o.value ≤ 0) →
      getValueAsInt longBits r name d = some (parsedInteger o.value)) := by
  have hi := toInt32_strtol_of_range longBits h32 o.value hlo hhi
  have key : getValueAsInt longBits r name d
      = some (if o.value = "" ∨ parsedInteger o.value ≤ 0 then d
          else parsedInteger o.value) := by
    by_cases hv : o.value = ""
    · simp [getValueAsInt, hreg, hv]
    · by_cases hp : parsedInteger o.value ≤ 0
      · have hp2 : ¬ 0 < parsedInteger o.value := not_lt.2 hp
        simp [getValueAsInt, hreg, hv, hi, hp, hp2]
      · have hp2 : 0 < parsedInteger o.value := not_le.1 hp
        simp [getValueAsInt, hreg, hv, hi, hp, hp2]
  refine ⟨key, ?_, ?_⟩
  · intro hc
    rw [key, if_pos hc]
  · intro hc
    rw [key, if_neg hc]

/-- Witness of C5, amended: the values `1920` and `-5` captured by `parse`, with the default
`800`, for a 64-bit `long`: the first is returned, the second gives the default. -/
theorem getValueAsInt_cases_witness :
    (parsedInteger "1920" = 1920 ∧
      getValueAsInt 64 (parse (add [] "w" ["-w"] true "") ["-w", "1920"]) "w" 800
        = some (parsedInteger "1920")) ∧
    (parsedInteger "-5" = -5 ∧
      getValueAsInt 64 (parse (add [] "w" ["-w"] true "") ["-w", "-5"]) "w" 800
        = some 800) :=
  ⟨⟨by decide,
      (getValueAsInt_cases 64 (by decide) (parse (add [] "w" ["-w"] true "") ["-w", "1920"])
        "w" { commands := ["-w"], value := "1920", hasValue := true, set := true } 800
        (by decide) (by decide) (by decide)).2.2 (by decide)⟩,
    ⟨by decide,
      (getValueAsInt_cases 64 (by decide) (parse (add [] "w" ["-w"] true "") ["-w", "-5"])
        "w" { commands := ["-w"], value := "-5", hasValue := true, set := true } 800
        (by decide) (by decide) (by decide)).2.1 (by decide)⟩⟩

/-- Counterexample to C6 as stated: the stored value `12abc` is non-empty and is not the
decimal numeral of any integer, yet `getValueAsInt("w", 800)` returns 12, the leading number
read by `strtol`, and not the default (for a 32-bit and for a 64-bit `long`). -/
theorem getValueAsInt_reads_numeric_prefix :
    find (parse (add [] "w" ["-w"] true "") ["-w", "12abc"]) "w"
      = some { commands := ["-w"], value := "12abc", hasValue := true, help := "",
               set := true } ∧
    (¬ ∃ n : Nat, 0 < n ∧ "12abc" = decimal n) ∧
    getValueAsInt 32 (parse (add [] "w" ["-w"] true "") ["-w", "12abc"]) "w" 800 = some 12 ∧
    getValueAsInt 64 (parse (add [] "w" ["-w"] true "") ["-w", "12abc"]) "w" 800 = some 12 := by
  refine ⟨by decide, ?_, by decide, by decide⟩
  rintro ⟨n, -, hn⟩
  have h := (decimal_spec n).1 'a' (by rw [← hn]; decide)
  revert h
  decide

/-- C6, amended: for every registered option whose stored value is non-empty and from which
`strtol`, converted to `int32_t`, reads no strictly positive number (0 for text without a
leading number such as `abc`; a leading number that is zero or negative such as `0` or
`-5`), `getValueAsInt(name, d)` returns the default `d` and does not fail. -/
theorem getValueAsInt_default_of_nonpositive (longBits : Nat) (r : Registry) (name : String)
    (o : CommandLineOption) (d : Int) (hreg : find r name = some o) (hne : o.value ≠ "")
    (hnp : toInt32 (strtol longBits o.value) ≤ 0) :
    getValueAsInt longBits r name d = some d := by
  have hp : ¬ 0 < toInt32 (strtol longBits o.value) := not_lt.2 hnp
  simp [getValueAsInt, hreg, hne, hp]

/-- Witness of C6, amended: the values `abc`, `-5` and `0` captured by `parse`. -/
theorem getValueAsInt_default_of_nonpositive_witness :
    (toInt32 (strtol 64 "abc") = 0 ∧
      getValueAsInt 64 (parse (add [] "w" ["-w"] true "") ["-w", "abc"]) "w" 800 = some 800) ∧
    (toInt32 (strtol 64 "-5") = -5 ∧
      getValueAsInt 64 (parse (add [] "w" ["-w"] true "") ["-w", "-5"]) "w" 800 = some 800) ∧
    (toInt32 (strtol 64 "0") = 0 ∧
      getValueAsInt 64 (parse (add [] "w" ["-w"] true "") ["-w", "0"]) "w" 800 = some 800) :=
  ⟨⟨by decide,
      getValueAsInt_default_of_nonpositive 64 _ "w"
        { commands := ["-w"], value := "abc", hasValue := true, set := true } 800
        (by decide) (by decide) (by decide)⟩,
    ⟨by decide,
      getValueAsInt_default_of_nonpositive 64 _ "w"
        { commands := ["-w"], value := "-5", hasValue := true, set := true } 800
        (by decide) (by decide) (by decide)⟩,
    ⟨by decide,
      getValueAsInt_default_of_nonpositive 64 _ "w"
        { commands := ["-w"], value := "0", hasValue := true, set := true } 800
        (by decide) (by decide) (by decide)⟩⟩

/-- C7: for every registered option name and every default `d`, `getValueAsString(name, d)`
returns the stored value when it is non-empty and returns `d` when it is empty. -/
theorem getValueAsString_cases (r : Registry) (name : String) (o : CommandLineOption)
    (d : String) (hreg : find r name = some o) :
    (o.value ≠ "" → getValueAsString r name d = some o.value) ∧
    (o.value = "" → getValueAsString r name d = some d) := by
  constructor
  · intro hv
    simp [getValueAsString, hreg, hv]
  · intro hv
    simp [getValueAsString, hreg, hv]

/-- Witness of C7: the value `200` captured by `parse` for `w` is returned, and the default
`d` is returned for `h`, whose value is empty. -/
theorem getValueAsString_cases_witness :
    getValueAsString
      (parse (addAll [] [("w", ["--width"], true, ""), ("h", ["--height"], true, "")])
        ["--width", "200"]) "w" "d" = some "200" ∧
    getValueAsString
      (parse (addAll [] [("w", ["--width"], true, ""), ("h", ["--height"], true, "")])
        ["--width", "200"]) "h" "d" = some "d" :=
  ⟨(getValueAsString_cases
      (parse (addAll [] [("w", ["--width"], true, ""), ("h", ["--height"], true, "")])
        ["--width", "200"]) "w"
      { commands := ["--width"], value := "200", hasValue := true, set := true } "d"
      (by decide)).1 (by decide),
    (getValueAsString_cases
      (parse (addAll [] [("w", ["--width"], true, ""), ("h", ["--height"], true, "")])
        ["--width", "200"]) "h"
      { commands := ["--height"], hasValue := true } "d" (by decide)).2 rfl⟩

/-- C8: `getValueAsString(name, d)` and `getValueAsInt(name, d)` fail (the assertion fails and
no value is returned) if and only if `name` is not a key of the registry; for every registered
name they return a value. -/
theorem accessors_fail_iff_unregistered (longBits : Nat) (r : Registry) (name : String)
    (d : String) (di : Int) :
    (getValueAsString r name d = none ↔ name ∉ keys r) ∧
    (getValueAsInt longBits r name di = none ↔ name ∉ keys r) ∧
    (name ∈ keys r →
      (∃ s, getValueAsString r name d = some s) ∧
      (∃ n, getValueAsInt longBits r name di = some n)) := by
  have hk := find_eq_none_iff r name
  cases hf : find r name with
  | none =>
    rw [hf] at hk
    have hnot : name ∉ keys r := hk.1 rfl
    simp [getValueAsString, getValueAsInt, hf, hnot]
  | some o =>
    rw [hf] at hk
    have hin : name ∈ keys r := by
      by_contra hc
      exact Option.noConfusion (hk.2 hc)
    refine ⟨by simp [getValueAsString, hf, hin], ?_, fun _ => ⟨?_, ?_⟩⟩
    · simp only [getValueAsInt, hf]
      split <;> simp [hin]
    · simp [getValueAsString, hf]
    · simp only [getValueAsInt, hf]
      split <;> simp

/-- C9: `isSet(name)` returns true exactly when `name` is a key of the registry and the
`set` flag of that option is true; for every unregistered name it returns false. -/
theorem isSet_iff (r : Registry) (name : String) :
    (isSet r name = true ↔ name ∈ keys r ∧ ∃ o, find r name = some o ∧ o.set = true) ∧
    (name ∉ keys r → isSet r name = false) := by
  have hk := find_eq_none_iff r name
  cases hf : find r name with
  | none =>
    rw [hf] at hk
    have hnot : name ∉ keys r := hk.1 rfl
    simp [isSet, hf, hnot]
  | some o =>
    rw [hf] at hk
    have hin : name ∈ keys r := by
      by_contra hc
      exact Option.noConfusion (hk.2 hc)
    simp [isSet, hf, hin]

/-- C10: re-registration resets the parsed state.  For every registry state, after
`add(name, commands, hasValue, help)` the entry under `name` has exactly the given
`commands`, `hasValue` and `help` with `set = false` and an empty value, so `isSet(name)` is
false and `getValueAsString(name, d)` returns `d`; the entry under every other name is
unchanged. -/
theorem add_resets_entry (r : Registry) (name : String) (commands : List String)
    (hasValue : Bool) (help : String) (d : String) :
    find (add r name commands hasValue help) name
      = some { commands := commands, value := "", hasValue := hasValue, help := help,
               set := false } ∧
    isSet (add r name commands hasValue help) name = false ∧
    getValueAsString (add r name commands hasValue help) name d = some d ∧
    (∀ other, other ≠ name → find (add r name commands hasValue help) other = find r other) := by
  have hf := find_add_same r name commands hasValue help
  refine ⟨hf, by simp [isSet, hf], by simp [getValueAsString, hf], ?_⟩
  intro other ho
  exact find_add_ne r name other commands hasValue help ho

/-! ## One iteration of the token loop -/

theorem scanArguments_skip (command arg : String) (rest : List String)
    (o : CommandLineOption) (printHelp : Bool) (h : arg ≠ command) :
    scanArguments command (arg :: rest) o printHelp
      = scanArguments command rest o printHelp := by
  rw [scanArguments]
  simp [strcmp_eq_zero_iff, h]

theorem scanArguments_match_no_value (command : String) (rest : List String)
    (o : CommandLineOption) (printHelp : Bool) (hh : o.hasValue = false) :
    scanArguments command (command :: rest) o printHelp
      = scanArguments command rest { o with set := true } printHelp := by
  rw [scanArguments]
  simp [strcmp_eq_zero_iff, hh]

theorem scanArguments_capture_empty (command : String) (rest : List String)
    (o : CommandLineOption) (printHelp : Bool) (hh : o.hasValue = true) :
    scanArguments command (command :: "" :: rest) o printHelp
      = ({ o with set := true, value := "" }, true) := by
  rw [scanArguments]
  simp [strcmp_eq_zero_iff, hh]

theorem scanArguments_final (command : String) (o : CommandLineOption) (printHelp : Bool)
    (hh : o.hasValue = true) :
    scanArguments command [command] o printHelp
      = ({ o with set := true }, printHelp || decide (o.value = "")) := by
  rw [scanArguments]
  by_cases hv : o.value = ""
  · simp [strcmp_eq_zero_iff, hh, hv]
  · simp [strcmp_eq_zero_iff, hh, hv, scanArguments]

/-! ## What a scan leaves unchanged -/

/-- The scan of one command changes neither `commands`, `hasValue` nor `help`; it sets the
flag exactly when the command occurs, and leaves the value of an option that takes no value
alone. -/
theorem scanArguments_frame (command : String) (arguments : List String) :
    ∀ (o : CommandLineOption) (printHelp : Bool),
      (scanArguments command arguments o printHelp).1.commands = o.commands ∧
      (scanArguments command arguments o printHelp).1.hasValue = o.hasValue ∧
      (scanArguments command arguments o printHelp).1.help = o.help ∧
      (scanArguments command arguments o printHelp).1.set
        = (o.set || decide (command ∈ arguments)) ∧
      (o.hasValue = false → (scanArguments command arguments o printHelp).1.value = o.value) := by
  induction arguments with
  | nil => intro o printHelp; simp [scanArguments]
  | cons arg rest ih =>
    intro o printHelp
    by_cases ha : arg = command
    · subst ha
      by_cases hh : o.hasValue = true
      · have hnot : ¬ o.hasValue = false := by simp [hh]
        cases rest with
        | nil =>
          rw [scanArguments_final _ _ _ hh]
          simp [hh]
        | cons next rest2 =>
          by_cases hn : next = ""
          · subst hn
            rw [scanArguments_capture_empty _ _ _ _ hh]
            simp [hh]
          · obtain ⟨h1, h2, h3, h4, -⟩ :=
              ih { o with set := true, value := next } printHelp
            rw [scanArguments_capture _ _ _ _ _ hh hn]
            refine ⟨h1, h2, h3, ?_, fun hf => absurd hf hnot⟩
            rw [h4]; simp
      · have hh2 : o.hasValue = false := by simpa using hh
        obtain ⟨h1, h2, h3, h4, h5⟩ := ih { o with set := true } printHelp
        rw [scanArguments_match_no_value _ _ _ _ hh2]
        refine ⟨h1, h2, h3, ?_, fun _ => h5 hh2⟩
        rw [h4]; simp
    · have hc : ¬ command = arg := fun h => ha h.symm
      obtain ⟨h1, h2, h3, h4, h5⟩ := ih o printHelp
      rw [scanArguments_skip _ _ _ _ _ ha]
      refine ⟨h1, h2, h3, ?_, h5⟩
      rw [h4]; simp [hc]

theorem scanCommands_frame (arguments : List String) (commands : List String) :
    ∀ (o : CommandLineOption) (printHelp : Bool),
      (scanCommands arguments commands o printHelp).1.commands = o.commands ∧
      (scanCommands arguments commands o printHelp).1.hasValue = o.hasValue ∧
      (scanCommands arguments commands o printHelp).1.help = o.help ∧
      (scanCommands arguments commands o printHelp).1.set
        = (o.set || commands.any (fun c => decide (c ∈ arguments))) ∧
      (o.hasValue = false →
        (scanCommands arguments commands o printHelp).1.value = o.value) := by
  induction commands with
  | nil => intro o printHelp; simp [scanCommands]
  | cons c rest ih =>
    intro o printHelp
    obtain ⟨a1, a2, a3, a4, a5⟩ := scanArguments_frame c arguments o printHelp
    obtain ⟨b1, b2, b3, b4, b5⟩ :=
      ih (scanArguments c arguments o printHelp).1 (scanArguments c arguments o printHelp).2
    simp only [scanCommands]
    refine ⟨b1.trans a1, b2.trans a2, b3.trans a3, ?_, ?_⟩
    · rw [b4, a4]; simp [Bool.or_assoc]
    · intro hf
      rw [b5 (a2.trans hf), a5 hf]

/-! ## Lookups that do not insert -/

theorem subscript_of_find (r : Registry) (name : String) (o : CommandLineOption)
    (h : find r name = some o) : subscript r name = (r, o) := by
  simp [subscript, h]

theorem parseArgv_all (r : Registry) (argv : List String) :
    parseArgv r (argv.length : Int) argv = parse r argv := by
  simp [parseArgv]

/-! ## The keys after `parse` -/

theorem keys_map_snd (r : Registry) (f : CommandLineOption → CommandLineOption) :
    keys (r.map (fun e => (e.1, f e.2))) = keys r := by
  simp [keys, List.map_map, Function.comp_def]

theorem keys_scanned (r : Registry) (arguments : List String) :
    keys (r.map (fun e => (e.1, (scanOption arguments e.2).1))) = keys r :=
  keys_map_snd r (fun o => (scanOption arguments o).1)

theorem mem_keys_assign (r : Registry) (name : String)
    (f : CommandLineOption → CommandLineOption) (k : String) :
    k ∈ keys (assign r name f) ↔ k = name ∨ k ∈ keys r := by
  induction r with
  | nil => simp [assign, keys]
  | cons e rest ih =>
    obtain ⟨k2, o⟩ := e
    by_cases h : k2 = name
    · subst h
      simp [assign, keys]
    · have ih2 : k ∈ List.map Prod.fst (assign rest name f) ↔
          k = name ∨ k ∈ List.map Prod.fst rest := ih
      simp only [assign, h, if_false, keys, List.map_cons, List.mem_cons, ih2]
      tauto

/-! ## Iteration order -/

theorem find_eq_some_iff_mem (r : Registry) (hnd : (keys r).Nodup) (name : String)
    (o : CommandLineOption) : find r name = some o ↔ (name, o) ∈ r := by
  constructor
  · exact find_mem r name o
  · intro hm
    induction r with
    | nil => simp at hm
    | cons e rest ih =>
      obtain ⟨k, o2⟩ := e
      have hnd2 : k ∉ keys rest ∧ (keys rest).Nodup := by
        simpa [keys] using hnd
      rcases List.mem_cons.1 hm with heq | hin
      · cases heq
        simp [find]
      · have hk : name ∈ keys rest := List.mem_map.2 ⟨(name, o), hin, rfl⟩
        have hne : ¬ k = name := fun h => hnd2.1 (h ▸ hk)
        simp [find, hne, ih hnd2.2 hin]

theorem find_perm (r1 r2 : Registry) (hperm : r1.Perm r2) (hnd : (keys r1).Nodup)
    (name : String) : find r1 name = find r2 name := by
  have hnd2 : (keys r2).Nodup := (hperm.map Prod.fst).nodup hnd
  apply Option.ext
  intro o
  simp only [Option.mem_def]
  rw [find_eq_some_iff_mem r1 hnd, find_eq_some_iff_mem r2 hnd2]
  exact hperm.mem_iff

theorem missingValue_perm (r1 r2 : Registry) (hperm : r1.Perm r2) (arguments : List String) :
    missingValue r1 arguments = missingValue r2 arguments := by
  rw [missingValue_eq, missingValue_eq, Bool.eq_iff_iff, List.any_eq_true, List.any_eq_true]
  constructor
  · rintro ⟨e, he, h⟩
    exact ⟨e, hperm.mem_iff.1 he, h⟩
  · rintro ⟨e, he, h⟩
    exact ⟨e, hperm.mem_iff.2 he, h⟩

/-! ## Scanning twice -/

/-- The scan of one command of a value-taking option either captures a value that depends
on the tokens only, or captures nothing and keeps the value of the option. -/
theorem scanArguments_dichotomy (command : String) (arguments : List String) :
    (∃ K : String, ∀ (o : CommandLineOption) (printHelp : Bool), o.hasValue = true →
      scanArguments command arguments o printHelp
        = ({ o with set := true, value := K }, printHelp || decide (K = ""))) ∨
    (∀ (o : CommandLineOption) (printHelp : Bool), o.hasValue = true →
      scanArguments command arguments o printHelp
        = ({ o with set := o.set || decide (command ∈ arguments) },
            printHelp || (decide (arguments.getLast? = some command) &&
              decide (o.value = "")))) := by
  induction arguments with
  | nil =>
    right
    intro o printHelp _
    cases o
    simp [scanArguments]
  | cons arg rest ih =>
    by_cases ha : arg = command
    · subst ha
      cases rest with
      | nil =>
        right
        intro o printHelp hh
        rw [scanArguments_final _ _ _ hh]
        simp
      | cons next rest2 =>
        by_cases hn : next = ""
        · subst hn
          left
          refine ⟨"", ?_⟩
          intro o printHelp hh
          rw [scanArguments_capture_empty _ _ _ _ hh]
          simp
        · rcases ih with ⟨K, hK⟩ | hI
          · left
            refine ⟨K, ?_⟩
            intro o printHelp hh
            rw [scanArguments_capture _ _ _ _ _ hh hn,
              hK { o with set := true, value := next } printHelp hh]
          · left
            refine ⟨next, ?_⟩
            intro o printHelp hh
            rw [scanArguments_capture _ _ _ _ _ hh hn,
              hI { o with set := true, value := next } printHelp hh]
            simp [hn]
    · have hc : ¬ command = arg := fun h => ha h.symm
      rcases ih with ⟨K, hK⟩ | hI
      · left
        refine ⟨K, ?_⟩
        intro o printHelp hh
        rw [scanArguments_skip _ _ _ _ _ ha, hK o printHelp hh]
      · right
        intro o printHelp hh
        rw [scanArguments_skip _ _ _ _ _ ha, hI o printHelp hh]
        cases rest with
        | nil => simp [hc, ha]
        | cons x xs => simp [hc, List.getLast?_cons_cons]

theorem option_eq (a b : CommandLineOption) (h1 : a.commands = b.commands)
    (h2 : a.value = b.value) (h3 : a.hasValue = b.hasValue) (h4 : a.help = b.help)
    (h5 : a.set = b.set) : a = b := by
  cases a
  cases b
  simp_all

/-- The scan of one command of an option that takes no value only sets the flag. -/
theorem scanArguments_of_no_value (command : String) (arguments : List String) :
    ∀ (o : CommandLineOption) (printHelp : Bool), o.hasValue = false →
      scanArguments command arguments o printHelp
        = ({ o with set := o.set || decide (command ∈ arguments) }, printHelp) := by
  induction arguments with
  | nil =>
    intro o printHelp _
    cases o
    simp [scanArguments]
  | cons arg rest ih =>
    intro o printHelp hh
    by_cases ha : arg = command
    · subst ha
      rw [scanArguments_match_no_value _ _ _ _ hh, ih { o with set := true } printHelp hh]
      simp
    · have hc : ¬ command = arg := fun h => ha h.symm
      rw [scanArguments_skip _ _ _ _ _ ha, ih o printHelp hh]
      simp [hc]

theorem scanCommands_of_no_value (arguments : List String) (commands : List String) :
    ∀ (o : CommandLineOption) (printHelp : Bool), o.hasValue = false →
      scanCommands arguments commands o printHelp
        = ({ o with set := o.set || commands.any (fun c => decide (c ∈ arguments)) },
            printHelp) := by
  induction commands with
  | nil =>
    intro o printHelp _
    cases o
    simp [scanCommands]
  | cons c rest ih =>
    intro o printHelp hh
    simp only [scanCommands]
    rw [scanArguments_of_no_value c arguments o printHelp hh]
    dsimp only
    rw [ih { o with set := o.set || decide (c ∈ arguments) } printHelp hh]
    simp [Bool.or_assoc]

/-- When a scan leaves the value empty, the value was empty before or a missing value was
found. -/
theorem scanArguments_value_empty (command : String) (arguments : List String)
    (o : CommandLineOption) (printHelp : Bool)
    (h : (scanArguments command arguments o printHelp).1.value = "") :
    o.value = "" ∨ (scanArguments command arguments o printHelp).2 = true := by
  by_cases hh : o.hasValue = true
  · rcases scanArguments_dichotomy command arguments with ⟨K, hK⟩ | hI
    · rw [hK o printHelp hh] at h ⊢
      right
      have hk : K = "" := h
      simp [hk]
    · rw [hI o printHelp hh] at h
      exact Or.inl h
  · have hh2 : o.hasValue = false := by simpa using hh
    rw [scanArguments_of_no_value command arguments o printHelp hh2] at h
    exact Or.inl h

theorem scanCommands_value_empty (arguments : List String) (commands : List String) :
    ∀ (o : CommandLineOption) (printHelp : Bool),
      (scanCommands arguments commands o printHelp).1.value = "" →
      o.value = "" ∨ (scanCommands arguments commands o printHelp).2 = true := by
  induction commands with
  | nil => intro o printHelp h; exact Or.inl h
  | cons c rest ih =>
    intro o printHelp h
    simp only [scanCommands] at h ⊢
    rcases ih _ _ h with h1 | h1
    · rcases scanArguments_value_empty c arguments o printHelp h1 with h2 | h2
      · exact Or.inl h2
      · right
        rw [scanCommands_flag, h2]
        rfl
    · exact Or.inr h1

/-- Scanning the commands of a value-taking option a second time changes nothing, and finds
a missing value only if the first scan found one. -/
theorem scanCommands_twice (arguments : List String) (commands : List String) :
    ∀ o : CommandLineOption, o.hasValue = true →
      (scanCommands arguments commands (scanCommands arguments commands o false).1 false).1
        = (scanCommands arguments commands o false).1 ∧
      ((scanCommands arguments commands (scanCommands arguments commands o false).1 false).2
          = true →
        (scanCommands arguments commands o false).2 = true) := by
  induction commands with
  | nil => intro o _; simp [scanCommands]
  | cons c rest ih =>
    intro o hh
    obtain ⟨fa1, fa2, fa3, fa4, -⟩ := scanArguments_frame c arguments o false
    have hha : (scanArguments c arguments o false).1.hasValue = true := fa2.trans hh
    obtain ⟨fb1, fb2, fb3, fb4, -⟩ :=
      scanCommands_frame arguments rest (scanArguments c arguments o false).1 false
    obtain ⟨ih1, ih2⟩ := ih (scanArguments c arguments o false).1 hha
    have hh1 : (scanCommands arguments rest (scanArguments c arguments o false).1
        false).1.hasValue = true := fb2.trans hha
    have first : scanCommands arguments (c :: rest) o false
        = ((scanCommands arguments rest (scanArguments c arguments o false).1 false).1,
           (scanArguments c arguments o false).2 ||
             (scanCommands arguments rest (scanArguments c arguments o false).1 false).2) := by
      simp only [scanCommands]
      rw [scanCommands_flag]
    rw [first]
    simp only [scanCommands]
    rw [scanCommands_flag]
    rcases scanArguments_dichotomy c arguments with ⟨K, hK⟩ | hI
    · have hB : (scanArguments c arguments
          (scanCommands arguments rest (scanArguments c arguments o false).1 false).1 false)
          = scanArguments c arguments o false := by
        refine (hK _ false hh1).trans (Eq.trans ?_ (hK o false hh).symm)
        congr 1
        apply option_eq
        · exact fb1.trans fa1
        · rfl
        · exact fb2.trans fa2
        · exact fb3.trans fa3
        · rfl
      rw [hB]
      exact ⟨rfl, fun h => h⟩
    · have hB := hI (scanCommands arguments rest (scanArguments c arguments o false).1
        false).1 false hh1
      have hA := hI o false hh
      have hsame : ({ (scanCommands arguments rest (scanArguments c arguments o false).1
          false).1 with
          set := (scanCommands arguments rest (scanArguments c arguments o false).1
            false).1.set || decide (c ∈ arguments) } : CommandLineOption)
          = (scanCommands arguments rest (scanArguments c arguments o false).1 false).1 := by
        apply option_eq
        · rfl
        · rfl
        · rfl
        · rfl
        · show ((scanCommands arguments rest (scanArguments c arguments o false).1
            false).1.set || decide (c ∈ arguments))
            = (scanCommands arguments rest (scanArguments c arguments o false).1 false).1.set
          rw [fb4, fa4]
          cases o.set <;> cases decide (c ∈ arguments) <;> simp
      rw [hB, hsame]
      refine ⟨ih1, ?_⟩
      intro h
      simp only [Bool.false_or, Bool.or_eq_true, Bool.and_eq_true, decide_eq_true_eq] at h
      simp only [Bool.or_eq_true]
      rcases h with ⟨hl, hv⟩ | h2
      · rcases scanCommands_value_empty arguments rest _ false hv with h3 | h3
        · left
          rw [hA]
          have h4 : o.value = "" := by
            rw [hA] at h3
            exact h3
          simp [hl, h4]
        · exact Or.inr h3
      · exact Or.inr (ih2 h2)

/-- Scanning an option a second time changes nothing, and finds a missing value only if the
first scan found one. -/
theorem scanOption_twice (arguments : List String) (o : CommandLineOption) :
    (scanOption arguments (scanOption arguments o).1).1 = (scanOption arguments o).1 ∧
    ((scanOption arguments (scanOption arguments o).1).2 = true →
      (scanOption arguments o).2 = true) := by
  have hc : (scanOption arguments o).1.commands = o.commands :=
    (scanCommands_frame arguments o.commands o false).1
  by_cases hh : o.hasValue = true
  · have h := scanCommands_twice arguments o.commands o hh
    unfold scanOption at hc ⊢
    rw [hc]
    exact h
  · have hh2 : o.hasValue = false := by simpa using hh
    have h1 : scanOption arguments o
        = ({ o with set := o.set || o.commands.any (fun c => decide (c ∈ arguments)) },
            false) := scanCommands_of_no_value arguments o.commands o false hh2
    have h2 : scanOption arguments
        { o with set := o.set || o.commands.any (fun c => decide (c ∈ arguments)) }
        = ({ o with set := o.set || o.commands.any (fun c => decide (c ∈ arguments)) },
            false) := by
      refine (scanCommands_of_no_value arguments o.commands
        { o with set := o.set || o.commands.any (fun c => decide (c ∈ arguments)) }
        false hh2).trans ?_
      congr 1
      apply option_eq <;> simp
    rw [h1, h2]
    exact ⟨rfl, fun h => h⟩

/-- A flag that is already set does not change what a scan does to the other fields. -/
theorem scanArguments_set_true (command : String) (arguments : List String)
    (o : CommandLineOption) (printHelp : Bool) :
    scanArguments command arguments { o with set := true } printHelp
      = ({ (scanArguments command arguments o printHelp).1 with set := true },
          (scanArguments command arguments o printHelp).2) := by
  by_cases hh : o.hasValue = true
  · rcases scanArguments_dichotomy command arguments with ⟨K, hK⟩ | hI
    · rw [hK { o with set := true } printHelp hh, hK o printHelp hh]
    · rw [hI { o with set := true } printHelp hh, hI o printHelp hh]
      simp
  · have hh2 : o.hasValue = false := by simpa using hh
    rw [scanArguments_of_no_value command arguments { o with set := true } printHelp hh2,
      scanArguments_of_no_value command arguments o printHelp hh2]
    simp

theorem scanCommands_set_true (arguments : List String) (commands : List String) :
    ∀ (o : CommandLineOption) (printHelp : Bool),
      scanCommands arguments commands { o with set := true } printHelp
        = ({ (scanCommands arguments commands o printHelp).1 with set := true },
            (scanCommands arguments commands o printHelp).2) := by
  induction commands with
  | nil => intro o printHelp; rfl
  | cons c rest ih =>
    intro o printHelp
    simp only [scanCommands]
    rw [scanArguments_set_true]
    exact ih _ _

theorem scanOption_set_true (arguments : List String) (o : CommandLineOption) :
    (scanOption arguments { o with set := true }).1
      = { (scanOption arguments o).1 with set := true } := by
  unfold scanOption
  rw [scanCommands_set_true]

theorem scanOption_default_set (arguments : List String) :
    (scanOption arguments { set := true }).1 = { set := true } := rfl

/-! ## Assignments and maps over the registry -/

theorem map_assign (r : Registry) (name : String) (f g : CommandLineOption → CommandLineOption)
    (hfg : ∀ o, g (f o) = f (g o)) (hd : g (f {}) = f {}) :
    (assign r name f).map (fun e => (e.1, g e.2))
      = assign (r.map (fun e => (e.1, g e.2))) name f := by
  induction r with
  | nil => simp [assign, hd]
  | cons e rest ih =>
    obtain ⟨k, o⟩ := e
    by_cases h : k = name
    · simp [assign, h, hfg]
    · simp [assign, h, ih]

theorem assign_assign (r : Registry) (name : String) (f : CommandLineOption → CommandLineOption)
    (hf : ∀ o, f (f o) = f o) : assign (assign r name f) name f = assign r name f := by
  induction r with
  | nil => simp [assign, hf]
  | cons e rest ih =>
    obtain ⟨k, o⟩ := e
    by_cases h : k = name
    · simp [assign, h, hf]
    · simp [assign, h, ih]

theorem scanned_twice (r : Registry) (arguments : List String) :
    (r.map (fun e => (e.1, (scanOption arguments e.2).1))).map
        (fun e => (e.1, (scanOption arguments e.2).1))
      = r.map (fun e => (e.1, (scanOption arguments e.2).1)) := by
  rw [List.map_map]
  apply List.map_congr_left
  intro e _
  simp [(scanOption_twice arguments e.2).1]

/-! ## The help text -/

theorem sizeMinusOne_of_pos (sizeBits size : Nat) (h0 : 0 < size) (h : size < 2 ^ sizeBits) :
    sizeMinusOne sizeBits size = size - 1 := by
  unfold sizeMinusOne
  have e : size + 2 ^ sizeBits - 1 = (size - 1) + 2 ^ sizeBits := by omega
  rw [e, Nat.add_mod_right, Nat.mod_eq_of_lt (by omega)]

theorem intercalate_go_append (x y s : String) (l : List String) :
    String.intercalate.go (x ++ y) s l = x ++ String.intercalate.go y s l := by
  induction l generalizing y with
  | nil => simp [String.intercalate.go]
  | cons a rest ih =>
    simp only [String.intercalate.go]
    rw [String.append_assoc, String.append_assoc, ← String.append_assoc y s a, ih]

/-- The inner loop of `printHelp` writes the remaining commands joined by a comma and a
space. -/
theorem printCommands_eq (sizeBits size : Nat) (hsize : size < 2 ^ sizeBits)
    (rest : List String) :
    ∀ (command : String) (i : Nat) (out : String), i + 1 + rest.length = size →
      printCommands sizeBits size i (command :: rest) out
        = out ++ ", ".intercalate (command :: rest) := by
  induction rest with
  | nil =>
    intro command i out hi
    have hs := sizeMinusOne_of_pos sizeBits size (by simp at hi; omega) hsize
    have hlt : ¬ i < size - 1 := by simp at hi; omega
    simp [printCommands, hs, hlt, String.intercalate, String.intercalate.go]
  | cons c2 rest2 ih =>
    intro command i out hi
    have hs := sizeMinusOne_of_pos sizeBits size (by simp at hi; omega) hsize
    have hlt : i < size - 1 := by simp at hi; omega
    rw [printCommands]
    simp only [hs, hlt, if_true]
    rw [ih c2 (i + 1) _ (by simp at hi ⊢; omega)]
    simp only [String.intercalate, String.intercalate.go]
    rw [intercalate_go_append, String.append_assoc, String.append_assoc,
      String.append_assoc]

theorem printCommands_all (sizeBits : Nat) (commands : List String) (out : String)
    (hsize : commands.length < 2 ^ sizeBits) :
    printCommands sizeBits commands.length 0 commands out
      = out ++ ", ".intercalate commands := by
  cases commands with
  | nil => simp [printCommands, String.intercalate]
  | cons c rest =>
    exact printCommands_eq sizeBits _ hsize rest c 0 out (by simp; omega)

theorem join_cons (a : String) (l : List String) : String.join (a :: l) = a ++ String.join l := by
  apply String.ext
  simp [String.data_join]

theorem printOptions_eq (sizeBits : Nat) (r : Registry) :
    ∀ out : String, (∀ e ∈ r, e.2.commands.length < 2 ^ sizeBits) →
      printOptions sizeBits r out = out ++ String.join (r.map (fun e => helpLine e.2)) := by
  induction r with
  | nil => intro out _; simp [printOptions, String.join]
  | cons e rest ih =>
    intro out hsize
    obtain ⟨k, o⟩ := e
    rw [printOptions]
    rw [printCommands_all sizeBits o.commands _ (hsize (k, o) (by simp)),
      ih _ (fun e he => hsize e (List.mem_cons_of_mem _ he)), List.map_cons, join_cons]
    simp only [helpLine, String.append_assoc]

/-! ## Claims, continued -/

/-- C11: the accessors are read-only.  For every registry state, `printHelp`, `isSet` with any
name (registered or not), and `getValueAsString` and `getValueAsInt` with any registered name
leave the registry unchanged, and they return what the accessors return. -/
theorem accessors_leave_registry (sizeBits longBits : Nat) (r : Registry) :
    printHelpState sizeBits r = (printHelp sizeBits r, r) ∧
    (∀ name, isSetState r name = (isSet r name, r)) ∧
    (∀ name, name ∈ keys r → ∀ d, ∃ s,
      getValueAsStringState r name d = some (s, r) ∧ getValueAsString r name d = some s) ∧
    (∀ name, name ∈ keys r → ∀ d, ∃ n,
      getValueAsIntState longBits r name d = some (n, r) ∧
      getValueAsInt longBits r name d = some n) := by
  refine ⟨rfl, ?_, ?_, ?_⟩
  · intro name
    cases hf : find r name with
    | none => simp [isSetState, isSet, hf]
    | some o => simp [isSetState, isSet, hf, subscript_of_find r name o hf]
  · intro name hk d
    cases hf : find r name with
    | none => exact absurd hk ((find_eq_none_iff r name).1 hf)
    | some o =>
      exact ⟨if o.value = "" then d else o.value,
        by simp [getValueAsStringState, hf, subscript_of_find r name o hf],
        by simp [getValueAsString, hf]⟩
  · intro name hk d
    cases hf : find r name with
    | none => exact absurd hk ((find_eq_none_iff r name).1 hf)
    | some o =>
      by_cases hv : o.value = ""
      · exact ⟨d, by simp [getValueAsIntState, hf, subscript_of_find r name o hf, hv],
          by simp [getValueAsInt, hf, hv]⟩
      · exact ⟨if 0 < toInt32 (strtol longBits o.value) then toInt32 (strtol longBits o.value)
            else d,
          by simp [getValueAsIntState, hf, subscript_of_find r name o hf, hv],
          by simp [getValueAsInt, hf, hv]⟩

/-- C12: the token after a matched value-requiring command is captured without validation,
even when it is itself a registered flag.  With `w` added with command `--width` and
`hasValue = true` and `h` added with command `--height` (in either order, on any registry),
`parse` of `["--width", "--height"]` makes `getValueAsString("w", d)` return `--height` for
every `d`, and `isSet("h")` is true as well. -/
theorem next_flag_is_captured (r : Registry) (helpW helpH : String) (hasValueH : Bool)
    (d : String) :
    (getValueAsString
        (parse (add (add r "w" ["--width"] true helpW) "h" ["--height"] hasValueH helpH)
          ["--width", "--height"]) "w" d = some "--height" ∧
      isSet
        (parse (add (add r "w" ["--width"] true helpW) "h" ["--height"] hasValueH helpH)
          ["--width", "--height"]) "h" = true) ∧
    (getValueAsString
        (parse (add (add r "h" ["--height"] hasValueH helpH) "w" ["--width"] true helpW)
          ["--width", "--height"]) "w" d = some "--height" ∧
      isSet
        (parse (add (add r "h" ["--height"] hasValueH helpH) "w" ["--width"] true helpW)
          ["--width", "--height"]) "h" = true) := by
  have hw : "w" ≠ "help" := by decide
  have hh : "h" ≠ "help" := by decide
  have hwh : "w" ≠ "h" := by decide
  have hhw : "h" ≠ "w" := by decide
  have e1 : ¬ "--width" = "--height" := by decide
  have e2 : ¬ "--height" = "--width" := by decide
  have e3 : ¬ "--height" = "" := by decide
  have sw : (scanOption ["--width", "--height"]
      { commands := ["--width"], value := "", hasValue := true, help := helpW,
        set := false }).1.value = "--height" := by
    simp [scanOption, scanCommands, scanArguments, strcmp_eq_zero_iff, e2, e3]
  have sh : (scanOption ["--width", "--height"]
      { commands := ["--height"], value := "", hasValue := hasValueH, help := helpH,
        set := false }).1.set = true := by
    cases hasValueH <;>
      simp [scanOption, scanCommands, scanArguments, strcmp_eq_zero_iff, e1]
  refine ⟨⟨?_, ?_⟩, ⟨?_, ?_⟩⟩
  · simp [getValueAsString, find_parse_ne _ _ _ hw, find_add_ne _ _ _ _ _ _ hwh,
      find_add_same, sw]
  · simp [isSet, find_parse_ne _ _ _ hh, find_add_same, sh]
  · simp [getValueAsString, find_parse_ne _ _ _ hw, find_add_same, sw]
  · simp [isSet, find_parse_ne _ _ _ hh, find_add_ne _ _ _ _ _ _ hhw, find_add_same, sh]

/-- C13: for a registry of freshly added options, every token sequence (index 0 included)
and every registered option whose name is not `help`, after `parse` `isSet(name)` is true if
and only if some token is equal to some command token of the option, whatever `hasValue` is
and whether or not a value was captured; the same holds for `parse(argc, argv)`. -/
theorem isSet_iff_token_matches (calls : List (String × List String × Bool × String))
    (arguments : List String) (name : String) (o : CommandLineOption)
    (hreg : find (addAll [] calls) name = some o) (hn : name ≠ "help") :
    (isSet (parse (addAll [] calls) arguments) name = true ↔
      ∃ t ∈ arguments, ∃ c ∈ o.commands, t = c) ∧
    (isSet (parseArgv (addAll [] calls) (arguments.length : Int) arguments) name = true ↔
      ∃ t ∈ arguments, ∃ c ∈ o.commands, t = c) := by
  have hset := (fresh_addAll calls [] fresh_nil name o hreg).2
  have hfr := (scanCommands_frame arguments o.commands o false).2.2.2.1
  have key : isSet (parse (addAll [] calls) arguments) name = true ↔
      ∃ t ∈ arguments, ∃ c ∈ o.commands, t = c := by
    simp only [isSet, find_parse_ne _ _ _ hn, hreg, Option.map_some', scanOption, hfr, hset,
      Bool.false_or, List.any_eq_true, decide_eq_true_eq]
    constructor
    · rintro ⟨c, hc, hm⟩
      exact ⟨c, hm, c, hc, rfl⟩
    · rintro ⟨t, ht, c, hc, rfl⟩
      exact ⟨t, hc, ht⟩
  exact ⟨key, by rw [parseArgv_all]; exact key⟩

/-- Witness of C13: `help`, `w` and `f` freshly added, tokens `["prog", "-w"]`: the option
`w` is set although no value follows, and `f` is not. -/
theorem isSet_iff_token_matches_witness :
    (isSet (parse (addAll [] [("help", ["-h"], false, ""), ("w", ["-w", "--width"], true, ""),
        ("f", ["-f"], false, "")]) ["prog", "-w"]) "w" = true ↔
      ∃ t ∈ ["prog", "-w"], ∃ c ∈ ["-w", "--width"], t = c) ∧
    (isSet (parseArgv (addAll [] [("help", ["-h"], false, ""),
        ("w", ["-w", "--width"], true, ""), ("f", ["-f"], false, "")])
        ((["prog", "-w"].length : Nat) : Int) ["prog", "-w"]) "w" = true ↔
      ∃ t ∈ ["prog", "-w"], ∃ c ∈ ["-w", "--width"], t = c) :=
  isSet_iff_token_matches
    [("help", ["-h"], false, ""), ("w", ["-w", "--width"], true, ""), ("f", ["-f"], false, "")]
    ["prog", "-w"] "w" { commands := ["-w", "--width"], hasValue := true } (by decide)
    (by decide)

/-- Counterexample to C14 as stated: for `w` freshly added with commands `-w`, `--width` and
`hasValue = true`, and the tokens `["--width", "5", "-w"]`, the scan of the first command
`-w` detects a missing value and leaves the value empty, yet the later-listed command
`--width` is scanned afterwards and its match captures `5`. -/
theorem later_command_scanned_after_failure :
    scanArguments "-w" ["--width", "5", "-w"]
        { commands := ["-w", "--width"], value := "", hasValue := true, help := "",
          set := false } false
      = ({ commands := ["-w", "--width"], value := "", hasValue := true, help := "",
           set := true }, true) ∧
    find (parse (add [] "w" ["-w", "--width"] true "") ["--width", "5", "-w"]) "w"
      = some { commands := ["-w", "--width"], value := "5", hasValue := true, help := "",
               set := true } := by
  decide

/-- C14, amended: after a missing-value failure is detected for one command of an option, the
commands listed after it are still scanned, and their matches change the value and the flag.
For an option added with `hasValue = true` and commands `c1`, `c2`: when the token sequence
ends with `c1`, no occurrence of `c1` is followed by a non-empty token (so the scan of `c1`
finds a missing value), every occurrence of `c2` is followed by a non-empty token and the
last one by `v`, then after `parse` `isSet("help")` is true, the value of the option is `v`
and its flag is set. -/
theorem later_commands_still_scanned (r : Registry) (name c1 c2 help v : String)
    (pre post : List String) (d : String)
    (hend : (pre ++ c2 :: v :: post).getLast? = some c1)
    (hfail : ∀ (i : Nat) (w : String), (pre ++ c2 :: v :: post)[i]? = some c1 →
      (pre ++ c2 :: v :: post)[i + 1]? = some w → w = "")
    (hlast : c2 ∉ v :: post)
    (hne : ∀ i : Nat, (pre ++ c2 :: v :: post)[i]? = some c2 →
      (pre ++ c2 :: v :: post)[i + 1]? ≠ some "") :
    isSet (parse (add r name [c1, c2] true help) (pre ++ c2 :: v :: post)) "help" = true ∧
    getValueAsString (parse (add r name [c1, c2] true help) (pre ++ c2 :: v :: post)) name d
      = some v ∧
    isSet (parse (add r name [c1, c2] true help) (pre ++ c2 :: v :: post)) name = true := by
  have hv : v ≠ "" := fun h =>
    hne pre.length (by rw [List.getElem?_append_right (le_refl _)]; simp)
      (by rw [List.getElem?_append_right (Nat.le_succ _)]; simp [h])
  have hreg := find_add_same r name [c1, c2] true help
  obtain ⟨a1, a2, a3⟩ := scanArguments_no_value c1 (pre ++ c2 :: v :: post)
    { commands := [c1, c2], value := "", hasValue := true, help := help, set := false }
    false hfail rfl rfl
  have hmem : c1 ∈ pre ++ c2 :: v :: post := List.mem_of_getLast?_eq_some hend
  have hs : scanOption (pre ++ c2 :: v :: post)
      { commands := [c1, c2], value := "", hasValue := true, help := help, set := false }
      = ({ (scanArguments c1 (pre ++ c2 :: v :: post)
            { commands := [c1, c2], value := "", hasValue := true, help := help,
              set := false } false).1 with set := true, value := v }, true) := by
    simp only [scanOption, scanCommands]
    rw [scanArguments_last c2 v post hlast pre _ _ hne a2, a3]
    simp [hmem]
  have hmiss : missingValue (add r name [c1, c2] true help) (pre ++ c2 :: v :: post)
      = true := by
    rw [missingValue_eq, List.any_eq_true]
    exact ⟨_, find_mem _ _ _ hreg, by rw [hs]⟩
  have hhelp := isSet_help_of_missingValue _ _ hmiss
  obtain ⟨o2, hf, hval⟩ := value_parse (add r name [c1, c2] true help)
    (pre ++ c2 :: v :: post) name _ hreg
  rw [hs] at hval
  refine ⟨hhelp, by simp [getValueAsString, hf, hval, hv], ?_⟩
  by_cases hn : name = "help"
  · subst hn; exact hhelp
  · simp [isSet, find_parse_ne _ _ _ hn, hreg, hs]

/-- Witness of C14, amended: commands `-w`, `--width`, tokens `["--width", "5", "-w"]`. -/
theorem later_commands_still_scanned_witness :
    isSet (parse (add [] "w" ["-w", "--width"] true "") ["--width", "5", "-w"]) "help" = true ∧
    getValueAsString (parse (add [] "w" ["-w", "--width"] true "") ["--width", "5", "-w"])
      "w" "d" = some "5" ∧
    isSet (parse (add [] "w" ["-w", "--width"] true "") ["--width", "5", "-w"]) "w" = true :=
  later_commands_still_scanned [] "w" "-w" "--width" "" "5" [] ["-w"] "d" rfl
    (by
      intro i w h1 h2
      match i with
      | 0 => simp at h1
      | 1 => simp at h1
      | 2 => simp at h2
      | i + 3 => simp at h1)
    (by decide)
    (by
      intro i h1 h2
      match i with
      | 0 => simp at h2
      | 1 => simp at h1
      | 2 => simp at h1
      | i + 3 => simp at h1)

/-- C15: when no option named `help` is registered and `parse` detects a missing value, it
inserts an entry under the key `help` with an empty command list, `hasValue = false`, empty
help text and value, and `set = true`, so that `isSet("help")` is true afterwards and `help`
is the only new key; when no missing value is detected, `parse` adds no key. -/
theorem parse_inserts_help (r : Registry) (arguments : List String) :
    (find r "help" = none → missingValue r arguments = true →
      find (parse r arguments) "help"
        = some { commands := [], value := "", hasValue := false, help := "", set := true } ∧
      isSet (parse r arguments) "help" = true ∧
      ∀ k, k ∈ keys (parse r arguments) ↔ k = "help" ∨ k ∈ keys r) ∧
    (missingValue r arguments = false → keys (parse r arguments) = keys r) := by
  constructor
  · intro hnone hm
    have hf : find (parse r arguments) "help"
        = some { commands := [], value := "", hasValue := false, help := "", set := true } := by
      rw [find_parse_help]
      simp [hm, hnone]
    refine ⟨hf, by simp [isSet, hf], ?_⟩
    intro k
    rw [parse_eq]
    simp only [hm, if_true]
    rw [mem_keys_assign, keys_scanned]
  · intro hm
    rw [parse_eq]
    simp only [hm, Bool.false_eq_true, if_false]
    exact keys_scanned r arguments

/-- Witness of C15: only `w` is registered and the tokens `["-w"]` miss its value, so `help`
is inserted; the tokens `["-w", "5"]` leave the keys as they were. -/
theorem parse_inserts_help_witness :
    (find (parse (add [] "w" ["-w"] true "") ["-w"]) "help"
        = some { commands := [], value := "", hasValue := false, help := "", set := true } ∧
      isSet (parse (add [] "w" ["-w"] true "") ["-w"]) "help" = true ∧
      ∀ k, k ∈ keys (parse (add [] "w" ["-w"] true "") ["-w"]) ↔
        k = "help" ∨ k ∈ keys (add [] "w" ["-w"] true "")) ∧
    keys (parse (add [] "w" ["-w"] true "") ["-w", "5"]) = keys (add [] "w" ["-w"] true "") :=
  ⟨(parse_inserts_help (add [] "w" ["-w"] true "") ["-w"]).1 (by decide) (by decide),
    (parse_inserts_help (add [] "w" ["-w"] true "") ["-w", "5"]).2 (by decide)⟩

/-- C16: `parse` changes only the `set` and `value` fields.  Every option present before
`parse` is present afterwards with the same `commands`, `hasValue` and `help`; an option with
`hasValue = false` keeps its value; and a `set` flag that was true stays true. -/
theorem parse_changes_only_set_and_value (r : Registry) (arguments : List String)
    (name : String) (o : CommandLineOption) (hreg : find r name = some o) :
    ∃ o2, find (parse r arguments) name = some o2 ∧
      o2.commands = o.commands ∧ o2.hasValue = o.hasValue ∧ o2.help = o.help ∧
      (o.hasValue = false → o2.value = o.value) ∧
      (o.set = true → o2.set = true) := by
  obtain ⟨h1, h2, h3, h4, h5⟩ := scanCommands_frame arguments o.commands o false
  have h6 : o.set = true → (scanOption arguments o).1.set = true := by
    intro hs
    show (scanCommands arguments o.commands o false).1.set = true
    rw [h4, hs]; rfl
  by_cases hn : name = "help"
  · subst hn
    rw [find_parse_help, hreg]
    split
    · exact ⟨_, rfl, h1, h2, h3, h5, fun _ => rfl⟩
    · exact ⟨_, rfl, h1, h2, h3, h5, h6⟩
  · rw [find_parse_ne _ _ _ hn, hreg]
    exact ⟨_, rfl, h1, h2, h3, h5, h6⟩

/-- Witness of C16: the option `f` takes no value and was set by an earlier `parse`; a second
`parse` with other tokens keeps it set, with the same commands, `hasValue`, help and value. -/
theorem parse_changes_only_set_and_value_witness :
    find (parse (addAll [] [("w", ["-w"], true, "Width"), ("f", ["-f"], false, "Full")])
        ["-f"]) "f"
      = some { commands := ["-f"], value := "", hasValue := false, help := "Full",
               set := true } ∧
    ∃ o2, find (parse (parse (addAll [] [("w", ["-w"], true, "Width"),
        ("f", ["-f"], false, "Full")]) ["-f"]) ["-w", "5"]) "f" = some o2 ∧
      o2.commands = ["-f"] ∧ o2.hasValue = false ∧ o2.help = "Full" ∧
      (false = false → o2.value = "") ∧ (true = true → o2.set = true) :=
  ⟨by decide,
    parse_changes_only_set_and_value
      (parse (addAll [] [("w", ["-w"], true, "Width"), ("f", ["-f"], false, "Full")]) ["-f"])
      ["-w", "5"] "f"
      { commands := ["-f"], value := "", hasValue := false, help := "Full", set := true }
      (by decide)⟩

/-- C17: `printHelp` writes the header `Available command line options:` and a newline, then
for each option, in iteration order, one line made of a space, the command tokens in their
stored order joined by a comma and a space, a colon and a space, the help text and a newline,
then the trailer `Press any key to close...`; for an option with an empty command list the
line is a space, a colon and a space followed by the help text, the unsigned `size() - 1`
never being compared. -/
theorem printHelp_eq_helpText (sizeBits : Nat) (r : Registry)
    (hsize : ∀ e ∈ r, e.2.commands.length < 2 ^ sizeBits) :
    printHelp sizeBits r = helpText r ∧
    (∀ o : CommandLineOption, o.commands = [] → helpLine o = " : " ++ o.help ++ "\n") ∧
    (∀ (k : String) (o : CommandLineOption) (out : String), o.commands = [] →
      printOptions sizeBits [(k, o)] out = out ++ " : " ++ o.help ++ "\n") := by
  refine ⟨?_, ?_, ?_⟩
  · unfold printHelp helpText
    rw [printOptions_eq sizeBits r _ hsize]
  · intro o ho
    simp only [helpLine, ho, String.intercalate]
    rfl
  · intro k o out ho
    simp only [printOptions, ho, printCommands, String.append_assoc]
    rfl

/-- Witness of C17: the listing of `help` with two commands and of an option without
commands, for a 64-bit `size_t`. -/
theorem printHelp_eq_helpText_witness :
    printHelp 64 (addAll [] [("help", ["-h", "--help"], false, "Show help"),
          ("none", [], false, "Nothing")])
      = "Available command line options:\n -h, --help: Show help\n : Nothing\nPress any key to close..." ∧
    helpText (addAll [] [("help", ["-h", "--help"], false, "Show help"),
          ("none", [], false, "Nothing")])
      = "Available command line options:\n -h, --help: Show help\n : Nothing\nPress any key to close..." := by
  have h := (printHelp_eq_helpText 64
    (addAll [] [("help", ["-h", "--help"], false, "Show help"), ("none", [], false, "Nothing")])
    (by decide)).1
  exact ⟨h.trans (by decide), by decide⟩

/-- C18: across different command tokens of one option, the order of the command list beats
the order of the tokens.  For an option added with `hasValue = true` and commands `c1`, `c2`
with `c1 ≠ c2`, and non-empty tokens `a`, `b` different from `c1` and `c2`, `parse` of
`[c2, a, c1, b]` leaves the value `a`, the follower of the later-listed command, and not `b`,
the follower of the last match in the token sequence. -/
theorem command_order_beats_token_order (r : Registry) (name c1 c2 a b help d : String)
    (h12 : c1 ≠ c2) (ha : a ≠ "") (hb : b ≠ "") (ha1 : a ≠ c1) (ha2 : a ≠ c2)
    (hb1 : b ≠ c1) (hb2 : b ≠ c2) :
    (∃ o2, find (parse (add r name [c1, c2] true help) [c2, a, c1, b]) name = some o2 ∧
      o2.value = a) ∧
    getValueAsString (parse (add r name [c1, c2] true help) [c2, a, c1, b]) name d
      = some a := by
  have h21 : c2 ≠ c1 := fun h => h12 h.symm
  obtain ⟨o2, hf, hval⟩ := value_parse (add r name [c1, c2] true help) [c2, a, c1, b]
    name _ (find_add_same r name [c1, c2] true help)
  have hs : (scanOption [c2, a, c1, b]
      { commands := [c1, c2], value := "", hasValue := true, help := help,
        set := false }).1.value = a := by
    have e1 : scanArguments c1 [c2, a, c1, b]
        { commands := [c1, c2], value := "", hasValue := true, help := help, set := false }
        false
        = ({ commands := [c1, c2], value := b, hasValue := true, help := help, set := true },
            false) := by
      rw [scanArguments_skip _ _ _ _ _ h21, scanArguments_skip _ _ _ _ _ ha1,
        scanArguments_capture _ _ _ _ _ rfl hb, scanArguments_skip _ _ _ _ _ hb1]
      rfl
    have e2 : scanArguments c2 [c2, a, c1, b]
        { commands := [c1, c2], value := b, hasValue := true, help := help, set := true }
        false
        = ({ commands := [c1, c2], value := a, hasValue := true, help := help, set := true },
            false) := by
      rw [scanArguments_capture _ _ _ _ _ rfl ha, scanArguments_skip _ _ _ _ _ ha2,
        scanArguments_skip _ _ _ _ _ h12, scanArguments_skip _ _ _ _ _ hb2]
      rfl
    simp only [scanOption, scanCommands, e1, e2]
  rw [hs] at hval
  exact ⟨⟨o2, hf, hval⟩, by simp [getValueAsString, hf, hval, ha]⟩

/-- Witness of C18: commands `-w`, `--width`, tokens `["--width", "100", "-w", "200"]`: the
value is `100`. -/
theorem command_order_beats_token_order_witness :
    (∃ o2, find (parse (add [] "w" ["-w", "--width"] true "")
        ["--width", "100", "-w", "200"]) "w" = some o2 ∧ o2.value = "100") ∧
    getValueAsString
      (parse (add [] "w" ["-w", "--width"] true "") ["--width", "100", "-w", "200"])
      "w" "d" = some "100" :=
  command_order_beats_token_order [] "w" "-w" "--width" "100" "200" "" "d"
    (by decide) (by decide) (by decide) (by decide) (by decide) (by decide) (by decide)

/-- C19: `parse` is idempotent for a fixed token sequence.  For every registry state and
every token sequence, running `parse` twice in a row with the same tokens leaves exactly the
registry that running it once leaves. -/
theorem parse_idempotent (r : Registry) (arguments : List String) :
    parse (parse r arguments) arguments = parse r arguments := by
  by_cases hm : missingValue r arguments = true
  · have h1 : parse r arguments
        = assign (r.map (fun e => (e.1, (scanOption arguments e.2).1))) "help"
            (fun o => { o with set := true }) := by
      rw [parse_eq]; simp [hm]
    have hmap : (parse r arguments).map (fun e => (e.1, (scanOption arguments e.2).1))
        = parse r arguments := by
      rw [h1, map_assign _ _ _ (fun o => (scanOption arguments o).1)
        (fun o => scanOption_set_true arguments o) (scanOption_default_set arguments),
        scanned_twice]
    rw [parse_eq (parse r arguments), hmap]
    split
    · rw [h1]
      exact assign_assign _ _ _ (fun _ => rfl)
    · rfl
  · have hm2 : missingValue r arguments = false := by simpa using hm
    have h1 : parse r arguments = r.map (fun e => (e.1, (scanOption arguments e.2).1)) := by
      rw [parse_eq]; simp [hm2]
    have hm3 : missingValue (parse r arguments) arguments = false := by
      rw [Bool.eq_false_iff]
      intro h
      rw [h1, missingValue_eq, List.any_eq_true] at h
      obtain ⟨e, he, hf⟩ := h
      obtain ⟨e0, he0, rfl⟩ := List.mem_map.1 he
      have h0 := (scanOption_twice arguments e0.2).2 hf
      have : missingValue r arguments = true := by
        rw [missingValue_eq, List.any_eq_true]
        exact ⟨e0, he0, h0⟩
      exact hm this
    rw [parse_eq (parse r arguments)]
    simp only [hm3, Bool.false_eq_true, if_false]
    rw [h1, scanned_twice]

/-- C20: the result of `parse` does not depend on the order in which the options are visited.
For two iteration orders `r1`, `r2` of the same uniquely named options and every token
sequence, every name has the same entry after `parse`, hence the same `set` flag (the forced
flag of `help` included) and the same value. -/
theorem parse_independent_of_order (r1 r2 : Registry) (hperm : r1.Perm r2)
    (hnd : (keys r1).Nodup) (arguments : List String) (name : String) :
    find (parse r1 arguments) name = find (parse r2 arguments) name ∧
    isSet (parse r1 arguments) name = isSet (parse r2 arguments) name ∧
    (∀ d, getValueAsString (parse r1 arguments) name d
      = getValueAsString (parse r2 arguments) name d) := by
  have hfind : find (parse r1 arguments) name = find (parse r2 arguments) name := by
    by_cases hn : name = "help"
    · subst hn
      rw [find_parse_help, find_parse_help, find_perm r1 r2 hperm hnd,
        missingValue_perm r1 r2 hperm]
    · rw [find_parse_ne _ _ _ hn, find_parse_ne _ _ _ hn, find_perm r1 r2 hperm hnd]
  refine ⟨hfind, by simp [isSet, hfind], fun d => by simp [getValueAsString, hfind]⟩

/-- Witness of C20: `help`, `w` and `f` visited in two orders, tokens `["-f", "-w"]`. -/
theorem parse_independent_of_order_witness :
    find (parse [("help", { commands := ["-h"] }),
        ("w", { commands := ["-w"], hasValue := true }), ("f", { commands := ["-f"] })]
        ["-f", "-w"]) "help"
      = find (parse [("f", { commands := ["-f"] }),
        ("w", { commands := ["-w"], hasValue := true }), ("help", { commands := ["-h"] })]
        ["-f", "-w"]) "help" ∧
    isSet (parse [("help", { commands := ["-h"] }),
        ("w", { commands := ["-w"], hasValue := true }), ("f", { commands := ["-f"] })]
        ["-f", "-w"]) "help"
      = isSet (parse [("f", { commands := ["-f"] }),
        ("w", { commands := ["-w"], hasValue := true }), ("help", { commands := ["-h"] })]
        ["-f", "-w"]) "help" ∧
    (∀ d, getValueAsString (parse [("help", { commands := ["-h"] }),
        ("w", { commands := ["-w"], hasValue := true }), ("f", { commands := ["-f"] })]
        ["-f", "-w"]) "help" d
      = getValueAsString (parse [("f", { commands := ["-f"] }),
        ("w", { commands := ["-w"], hasValue := true }), ("help", { commands := ["-h"] })]
        ["-f", "-w"]) "help" d) :=
  parse_independent_of_order _ _
    ((List.Perm.swap _ _ _).trans ((List.Perm.cons _ (List.Perm.swap _ _ _)).trans
      (List.Perm.swap _ _ _)))
    (by decide) ["-f", "-w"] "help"

end CommandLineParser
